import Mathlib

/-!
Verification of the reconciliation engine of
`github-milestone-creator/github_milestone_creator.py`.

The Python functions are shallowly embedded as executable Lean definitions.
String-processing helpers are modelled at the `List Char` level (Python
`str.split('\n')`, `str.split('-')`, `str.replace('Z', ...)` with single
character separators are exactly character-level splits/replacements).
The GitHub remote is modelled as an explicit `World` state; network
transport for reference-milestone lookups is a pure function parameter.
-/

set_option maxHeartbeats 1000000
set_option maxRecDepth 100000

deriving instance DecidableEq for Except

/-- A JSON object field that can be absent, null, or a string, matching the
three states a key can have in a `milestones.json` milestone entry. -/
inductive JField where
  | absent
  | null
  | str (s : String)
deriving DecidableEq

/-- A remote milestone record as returned by the GitHub API
(`number`, `title`, nullable `description`, nullable `due_on`, `state`). -/
structure Milestone where
  number : Nat
  title : String
  description : Option String
  due_on : Option String
  state : String
deriving DecidableEq

/-- One milestone entry of the configuration file (a `MilestoneSpec`).
`name`, `referenceMilestoneUrl`, `existingNameToRename` are schema-validated
optional strings; `description` and `dueDate` keep the full
absent/null/string distinction because the code inspects it. -/
structure MilestoneSpec where
  name : Option String := none
  referenceMilestoneUrl : Option String := none
  existingNameToRename : Option String := none
  description : JField := .absent
  dueDate : JField := .absent
deriving DecidableEq

/-- Python truthiness of an optional string (`x or None` / `'k' in d and d['k']`):
`None` and the empty string are falsy. -/
def truthyOpt : Option String → Option String
  | some s => if s = "" then none else some s
  | none => none

/-- The effective `referenceMilestoneUrl` (present and truthy). -/
def refUrl (cfg : MilestoneSpec) : Option String := truthyOpt cfg.referenceMilestoneUrl

/-- The effective `existingNameToRename` (present and truthy). -/
def renameVal (cfg : MilestoneSpec) : Option String := truthyOpt cfg.existingNameToRename

/-! ## Character-level string helpers -/

/-- Auxiliary accumulator version of the character-level split. -/
def splitOnCharAux (sep : Char) : List Char → List Char → List (List Char)
  | [], acc => [acc.reverse]
  | c :: cs, acc =>
    if c = sep then acc.reverse :: splitOnCharAux sep cs []
    else splitOnCharAux sep cs (c :: acc)

/-- Split a character list on a separator character; model of Python
`str.split(sep)` for a one-character separator. -/
def splitOnChar (sep : Char) (l : List Char) : List (List Char) :=
  splitOnCharAux sep l []

/-- Join lines with a newline character; model of `'\n'.join(lines)`. -/
def joinLines : List (List Char) → List Char
  | [] => []
  | [l] => l
  | l :: ls => l ++ '\n' :: joinLines ls

/-- Decimal digit character for a digit value (values above 9 clamp to '9',
never produced). -/
def digitChar (k : Nat) : Char :=
  if k = 0 then '0' else if k = 1 then '1' else if k = 2 then '2'
  else if k = 3 then '3' else if k = 4 then '4' else if k = 5 then '5'
  else if k = 6 then '6' else if k = 7 then '7' else if k = 8 then '8' else '9'

/-- Decimal digits with an explicit fuel bound; any fuel above the number of
digits gives the same result (see `natDigitsAux_fuel`). -/
def natDigitsAux : Nat → Nat → List Char
  | 0, _ => []
  | fuel + 1, n =>
    if n < 10 then [digitChar n]
    else natDigitsAux fuel (n / 10) ++ [digitChar (n % 10)]

/-- Decimal digits of a natural number, most significant first. -/
def natDigits (n : Nat) : List Char := natDigitsAux (n + 1) n

/-- Decimal digit test on the character code (codes 48-57). -/
def isDigitChar (c : Char) : Bool := 48 ≤ c.toNat && c.toNat ≤ 57

/-- Zero-pad the decimal rendering of `n` to width `w`; model of the
zero-padded `strftime` fields `%Y` / `%m` / `%d`. -/
def padChars (w n : Nat) : List Char :=
  List.replicate (w - (natDigits n).length) '0' ++ natDigits n

/-- Numeric value of a digit string. -/
def digitsVal (l : List Char) : Nat :=
  l.foldl (fun a c => a * 10 + (c.toNat - 48)) 0

/-- Model of Python `int(s)` for a plain digit string (as used by the
date-format regular expressions): defined exactly when the list is a
non-empty run of decimal digits. -/
def listToNat? (l : List Char) : Option Nat :=
  if l ≠ [] ∧ l.all isDigitChar then some (digitsVal l) else none

/-! ## Relaxed-JSON comment stripping (`_strip_json_comments`) -/

/-- Index of the first occurrence of the two-character sequence `*/`,
model of Python `line.find('*/')` restricted to a suffix. -/
def findStarSlash : List Char → Option Nat
  | '*' :: '/' :: _ => some 0
  | _ :: cs => (findStarSlash cs).map (· + 1)
  | [] => none

/-- The inner per-line scanner of `_strip_json_comments` (the `while i < len(line)`
loop). Arguments: remaining characters, `in_string`, `escape_next`, and a
skip counter that models the forward jump of the loop index over a block
comment closed on the same line (`i = end_idx + 2`): while positive,
characters are consumed unprocessed. Returns the kept characters and the
value of `in_multiline_comment` at the end of the line (the loop only ever
sets that variable to `True`; it is `False` on entry, see `stripLines`). -/
def scanLine : List Char → Bool → Bool → Nat → List Char × Bool
  | [], _, _, _ => ([], false)
  | _ :: cs, inString, escapeNext, skip + 1 => scanLine cs inString escapeNext skip
  | c :: cs, inString, escapeNext, 0 =>
    if escapeNext then
      let r := scanLine cs inString false 0
      (c :: r.1, r.2)
    else if c = '\\' && inString then
      let r := scanLine cs inString true 0
      (c :: r.1, r.2)
    else if c = '"' then
      let r := scanLine cs (!inString) false 0
      (c :: r.1, r.2)
    else if !inString && c = '/' && cs.head? == some '*' then
      match findStarSlash cs.tail with
      | some k =>
        let r := scanLine cs false false (k + 3)
        (r.1, true)
      | none => ([], true)
    else if !inString && c = '/' && cs.head? == some '/' then
      ([], false)
    else
      let r := scanLine cs inString escapeNext 0
      (c :: r.1, r.2)

/-- The outer per-line loop of `_strip_json_comments`: a line starting inside a
multi-line comment is dropped entirely unless it contains `*/`, in which case
scanning resumes after the first `*/`. -/
def stripLines : List (List Char) → Bool → List (List Char)
  | [], _ => []
  | l :: ls, inML =>
    if inML then
      match findStarSlash l with
      | some k =>
        let r := scanLine (l.drop (k + 2)) false false 0
        r.1 :: stripLines ls r.2
      | none => stripLines ls true
    else
      let r := scanLine l false false 0
      r.1 :: stripLines ls r.2

/-- Model of `_strip_json_comments`: split on newlines, process each line,
join the surviving lines with newlines. -/
def stripJsonComments (text : String) : String :=
  String.mk (joinLines (stripLines (splitOnChar '\n' text.toList) false))

/-! ## Date handling (`resolve_due_date` / `_format_date`) -/

/-- Leap-year rule of the proleptic Gregorian calendar used by `datetime`. -/
def isLeapYear (y : Nat) : Bool :=
  y % 4 == 0 && (y % 100 != 0 || y % 400 == 0)

/-- Number of days in a month, as validated by the `datetime` constructor. -/
def daysInMonth (y m : Nat) : Nat :=
  if m = 2 then (if isLeapYear y then 29 else 28)
  else if m = 4 ∨ m = 6 ∨ m = 9 ∨ m = 11 then 30
  else 31

/-- Model of `datetime.strptime(s, '%Y-%m-%d')`: `%Y` is exactly four digits,
`%m` and `%d` are one or two digits in range (per CPython `_strptime`
patterns), the whole string must be consumed, and the `datetime` constructor
additionally requires year at least 1 and a valid day of month. -/
def parseYMD (s : String) : Option (Nat × Nat × Nat) :=
  match splitOnChar '-' s.toList with
  | [ys, ms, ds] =>
    match listToNat? ys, listToNat? ms, listToNat? ds with
    | some y, some m, some d =>
      if ys.length = 4 ∧ 1 ≤ y ∧ (ms.length = 1 ∨ ms.length = 2) ∧ 1 ≤ m ∧ m ≤ 12
          ∧ (ds.length = 1 ∨ ds.length = 2) ∧ 1 ≤ d ∧ d ≤ daysInMonth y m then
        some (y, m, d)
      else none
    | _, _, _ => none
  | _ => none

/-- The characters of the zero-padded `YYYY-MM-DD` rendering. -/
def ymdChars (y m d : Nat) : List Char :=
  padChars 4 y ++ '-' :: (padChars 2 m ++ '-' :: padChars 2 d)

/-- The `YYYY-MM-DD` rendering as a string. -/
def ymdRender (y m d : Nat) : String := String.mk (ymdChars y m d)

/-- Model of `dt.strftime('%Y-%m-%dT00:00:00Z')`. -/
def formatIsoMidnight (y m d : Nat) : String :=
  String.mk (ymdChars y m d ++ "T00:00:00Z".toList)

/-- Model of `s.replace('Z', '+00:00')` (single-character pattern, so a
character-level replacement). -/
def replaceZ (l : List Char) : List Char :=
  (l.map (fun c => if c = 'Z' then "+00:00".toList else [c])).flatten

/-- Strict `YYYY-MM-DD` date parse used by the `fromisoformat` model. -/
def parseIsoDateChars (l : List Char) : Option (Nat × Nat × Nat) :=
  match splitOnChar '-' l with
  | [ys, ms, ds] =>
    match listToNat? ys, listToNat? ms, listToNat? ds with
    | some y, some m, some d =>
      if ys.length = 4 ∧ ms.length = 2 ∧ ds.length = 2 ∧ 1 ≤ y ∧ 1 ≤ m ∧ m ≤ 12
          ∧ 1 ≤ d ∧ d ≤ daysInMonth y m then some (y, m, d)
      else none
    | _, _, _ => none
  | _ => none

/-- A two-digit field in a given range. -/
def validTwo (l : List Char) (lo hi : Nat) : Bool :=
  match listToNat? l with
  | some v => decide (l.length = 2 ∧ lo ≤ v ∧ v ≤ hi)
  | none => false

/-- A valid `HH:MM` or `HH:MM:SS` time of day. -/
def validTimeOfDay (l : List Char) : Bool :=
  match splitOnChar ':' l with
  | [h, m] => validTwo h 0 23 && validTwo m 0 59
  | [h, m, s] => validTwo h 0 23 && validTwo m 0 59 && validTwo s 0 59
  | _ => false

/-- Validity of what follows the date in a `datetime.fromisoformat` input:
nothing, or a `T`/space separator, a time of day and optionally a `+HH:MM`
numeric offset (the subset of ISO-8601 inputs this program can produce). -/
def validTimeTail (l : List Char) : Bool :=
  match l with
  | [] => true
  | c :: rest =>
    (c == 'T' || c == ' ') &&
      (match splitOnChar '+' rest with
       | [t] => validTimeOfDay t
       | [t, off] => validTimeOfDay t && validTimeOfDay off
       | _ => false)

/-- Model of `datetime.fromisoformat` restricted to the date components: the
first ten characters must be a valid `YYYY-MM-DD`, the remainder a valid
time tail; returns the date components. -/
def parseIsoDatetime (l : List Char) : Option (Nat × Nat × Nat) :=
  match parseIsoDateChars (l.take 10) with
  | some ymd => if validTimeTail (l.drop 10) then some ymd else none
  | none => none

/-- Model of `_format_date`: falsy input gives `None`; otherwise replace `Z`
by `+00:00`, parse with `fromisoformat` and re-render just the date part;
on a parse failure return the original string. -/
def formatDate (dateStr : Option String) : Option String :=
  match dateStr with
  | none => none
  | some s =>
    if s = "" then none
    else
      match parseIsoDatetime (replaceZ s.toList) with
      | some (y, m, d) => some (ymdRender y m d)
      | none => some s

/-! ## Reference resolver (`parse_milestone_url` / `get_reference_milestone`) -/

/-- Outcome of one remote `GET /repos/{owner}/{repo}/milestones/{n}` call:
success, a 404, or any other transport failure (on which
`raise_for_status` raises). -/
inductive TransportResult where
  | ok (m : Milestone)
  | notFound
  | failure (msg : String)
deriving DecidableEq

/-- The network collaborator for reference-milestone lookups. -/
abbrev Net := String → String → Nat → TransportResult

/-- Remove a literal character prefix, returning the remainder. -/
def dropPrefixChars : List Char → List Char → Option (List Char)
  | [], l => some l
  | _ :: _, [] => none
  | p :: ps, c :: cs => if c = p then dropPrefixChars ps cs else none

/-- Model of `parse_milestone_url`: the strict pattern
`^https://github\.com/([^/]+)/([^/]+)/milestone/(\d+)$`. -/
def parseMilestoneUrl (url : String) : Option (String × String × Nat) :=
  match dropPrefixChars "https://github.com/".toList url.toList with
  | some rest =>
    match splitOnChar '/' rest with
    | [owner, repo, seg, num] =>
      if seg = "milestone".toList ∧ owner ≠ [] ∧ repo ≠ [] then
        match listToNat? num with
        | some n => some (String.mk owner, String.mk repo, n)
        | none => none
      else none
    | _ => none
  | none => none

/-- Model of `get_reference_milestone`: a malformed URL raises `ValueError`
which the enclosing `except Exception` catches (returning `None`); a 404
returns `None` with a warning; any other transport failure makes
`raise_for_status` raise, which the same `except Exception` catches,
also returning `None`. -/
def getReferenceMilestone (net : Net) (url : String) : Option Milestone :=
  match parseMilestoneUrl url with
  | none => none
  | some (owner, repo, n) =>
    match net owner repo n with
    | .ok m => some m
    | .notFound => none
    | .failure _ => none

/-- The reference milestone fetched at the start of `process_milestone`
(lines 350-352): only fetched when `referenceMilestoneUrl` is truthy. -/
def refMilestoneOf (net : Net) (cfg : MilestoneSpec) : Option Milestone :=
  match refUrl cfg with
  | some url => getReferenceMilestone net url
  | none => none

/-! ## Field resolution (`resolve_milestone_name` / `resolve_description` /
`resolve_due_date`) -/

/-- Model of `resolve_milestone_name`. -/
def resolveMilestoneName (net : Net) (cfg : MilestoneSpec) : Except String String :=
  match refUrl cfg with
  | some url =>
    match getReferenceMilestone net url with
    | some ref => .ok ref.title
    | none =>
      match cfg.name with
      | some n => .ok n
      | none => .error "referenceMilestoneUrl failed and no name provided"
  | none =>
    match cfg.name with
    | some n => .ok n
    | none => .error "Either name or referenceMilestoneUrl must be provided"

/-- Model of `resolve_description`: a linked spec always gets a pointer
description; otherwise an absent key yields `None` (the code comment reads
"Don't touch the field") and a null or empty value also yields `None` (the
code comment reads "Clear the field"); a non-empty value is passed through.
The `reference_milestone` parameter of the Python function is unused. -/
def resolveDescription (cfg : MilestoneSpec) : Option String :=
  match refUrl cfg with
  | some url => some ("See " ++ url)
  | none =>
    match cfg.description with
    | .absent => none
    | .null => none
    | .str s => if s = "" then none else some s

/-- Model of `resolve_due_date`. -/
def resolveDueDate (cfg : MilestoneSpec) (referenceMilestone : Option Milestone) :
    Except String (Option String) :=
  match refUrl cfg with
  | some _ =>
    match referenceMilestone with
    | some r =>
      match r.due_on with
      | some d => if d = "" then .ok none else .ok (some d)
      | none => .ok none
    | none => .ok none
  | none =>
    match cfg.dueDate with
    | .absent => .ok none
    | .null => .ok none
    | .str s =>
      if s = "" then .ok none
      else
        match parseYMD s with
        | some (y, m, d) => .ok (some (formatIsoMidnight y m d))
        | none => .error ("Invalid date format: " ++ s ++ ". Expected YYYY-MM-DD")

/-! ## Milestone matcher (`find_milestone_by_name` and the candidate search of
`process_milestone`, lines 362-381) -/

/-- Model of `find_milestone_by_name`: a first-hit case-sensitive
title-equality scan over all milestones (any state) of the repository. -/
def findMilestoneByName (milestones : List Milestone) (name : String) : Option Milestone :=
  milestones.find? (fun m => m.title == name)

/-- The ordered candidate search of `process_milestone`: (1) the
`existingNameToRename` title if provided (a hit sets `found_by_rename`);
(2) if a reference milestone was fetched, the resolved name; (3) the
resolved name unconditionally. First hit wins. -/
def matchExisting (milestones : List Milestone) (cfg : MilestoneSpec)
    (referenceMilestone : Option Milestone) (milestoneName : String) :
    Option Milestone × Bool :=
  let step1 :=
    match renameVal cfg with
    | some rn => findMilestoneByName milestones rn
    | none => none
  match step1 with
  | some m => (some m, true)
  | none =>
    let step2 :=
      if referenceMilestone.isSome then findMilestoneByName milestones milestoneName
      else none
    match step2 with
    | some m => (some m, false)
    | none => (findMilestoneByName milestones milestoneName, false)

/-! ## Remote state and mutating calls -/

/-- The milestone list and next fresh milestone number of one repository. -/
structure RepoState where
  milestones : List Milestone
  nextNumber : Nat
deriving DecidableEq

/-- The remote state, indexed by owner and repository name. -/
abbrev World := String → String → RepoState

/-- Pointwise update of one repository's state. -/
def updateWorld (w : World) (owner repo : String) (st : RepoState) : World :=
  fun o r => if o = owner ∧ r = repo then st else w o r

/-- The request body of `create_milestone`: `title` always, `description` and
`due_on` only when not `None`. -/
structure CreatePayload where
  title : String
  description : Option String
  due_on : Option String
deriving DecidableEq

/-- The request body of `update_milestone`: each field present only when the
corresponding argument is not `None`. -/
structure UpdatePayload where
  title : Option String
  description : Option String
  due_on : Option String
deriving DecidableEq

/-- A mutating remote call issued during processing. -/
inductive RemoteCall where
  | createCall (owner repo : String) (payload : CreatePayload)
  | updateCall (owner repo : String) (number : Nat) (payload : UpdatePayload)
deriving DecidableEq

/-- Effect of `create_milestone` on the repository: a new milestone with the
next fresh number is appended. -/
def applyCreate (st : RepoState) (p : CreatePayload) : Milestone × RepoState :=
  let m : Milestone :=
    { number := st.nextNumber, title := p.title, description := p.description,
      due_on := p.due_on, state := "open" }
  (m, { milestones := st.milestones ++ [m], nextNumber := st.nextNumber + 1 })

/-- Effect of `update_milestone` on the repository: every field present in the
request body overwrites the stored field of the milestone with that number. -/
def applyUpdate (st : RepoState) (num : Nat) (p : UpdatePayload) : RepoState :=
  { st with
    milestones := st.milestones.map (fun m =>
      if m.number = num then
        { m with
          title := p.title.getD m.title,
          description := match p.description with | some d => some d | none => m.description,
          due_on := match p.due_on with | some d => some d | none => m.due_on }
      else m) }

/-! ## Reconciliation decision engine (`process_milestone` / `run`) -/

/-- The action verbs recorded on a result. -/
inductive ActionVerb where
  | create | created | update | updated
deriving DecidableEq

/-- Model of the per-pair `result` dictionary (a `ReconciliationResult`). -/
structure PMResult where
  repo : String
  action : Option ActionVerb
  milestone_number : Option Nat
  milestone_url : Option String
  name : Option String
  error : Option String
  previous_name : Option String
  previous_description : Option String
  previous_due_date : Option String
  new_name : Option String
  new_description : Option String
  new_due_date : Option String
deriving DecidableEq

/-- The freshly initialised result dictionary of `process_milestone`. -/
def basePMResult (repo : String) : PMResult :=
  { repo := repo, action := none, milestone_number := none, milestone_url := none,
    name := none, error := none, previous_name := none, previous_description := none,
    previous_due_date := none, new_name := none, new_description := none,
    new_due_date := none }

/-- Split a character list at the first occurrence of a separator character. -/
def breakAtChar (sep : Char) : List Char → Option (List Char × List Char)
  | [] => none
  | c :: cs =>
    if c = sep then some ([], cs)
    else (breakAtChar sep cs).map (fun p => (c :: p.1, p.2))

/-- Split at the first occurrence of the separator character; model of Python
`s.split(sep, 1)` succeeding, `none` when the separator does not occur
(in which case the two-element unpacking raises `ValueError`). -/
def splitFirst (sep : Char) (s : String) : Option (String × String) :=
  (breakAtChar sep s.toList).map (fun p => (String.mk p.1, String.mk p.2))

/-- Whether a repo string contains the `/` separator, phrased as success of
the same split the code performs. -/
def containsSlash (s : String) : Bool := (splitFirst '/' s).isSome

/-- The derived public milestone URL, built only when the recorded milestone
number is truthy (non-zero). -/
def urlIfNonzero (owner repo : String) (num : Option Nat) : Option String :=
  match num with
  | some n =>
    if n ≠ 0 then
      some ("https://github.com/" ++ owner ++ "/" ++ repo ++ "/milestone/" ++
        String.mk (natDigits n))
    else none
  | none => none

/-- The tail of `process_milestone` after the due date resolved: the
candidate match and the create/update decision. `rp` is the raw repo string,
`o`/`r` the split owner and repository name. -/
def pmAfterDue (net : Net) (cfg : MilestoneSpec) (dry : Bool) (w : World)
    (rp o r milestoneName : String) (dueDate : Option String) :
    PMResult × World × List RemoteCall :=
  let r2 := { basePMResult rp with
    name := some milestoneName,
    new_name := some milestoneName,
    new_description := resolveDescription cfg, new_due_date := dueDate }
  match matchExisting (w o r).milestones cfg (refMilestoneOf net cfg) milestoneName with
  | (some existing, foundByRename) =>
    let r3 := { r2 with
      previous_name := some existing.title,
      previous_description := truthyOpt existing.description,
      previous_due_date := truthyOpt existing.due_on }
    let needsRename := foundByRename && existing.title != milestoneName
    if dry then
      let r4 := { r3 with milestone_number := some existing.number,
                          action := some .update }
      ({ r4 with milestone_url := urlIfNonzero o r r4.milestone_number }, w, [])
    else
      let payload : UpdatePayload :=
        { title := if needsRename then some milestoneName else none,
          description := resolveDescription cfg, due_on := dueDate }
      let r4 := { r3 with milestone_number := some existing.number,
                          action := some .updated }
      ({ r4 with milestone_url := urlIfNonzero o r r4.milestone_number },
       updateWorld w o r (applyUpdate (w o r) existing.number payload),
       [.updateCall o r existing.number payload])
  | (none, _) =>
    if dry then
      ({ r2 with action := some .create }, w, [])
    else
      let payload : CreatePayload :=
        { title := milestoneName, description := resolveDescription cfg,
          due_on := dueDate }
      let created := applyCreate (w o r) payload
      let r4 := { r2 with milestone_number := some created.1.number,
                          action := some .created }
      ({ r4 with milestone_url := urlIfNonzero o r r4.milestone_number },
       updateWorld w o r created.2,
       [.createCall o r payload])

/-- The tail of `process_milestone` after the name resolved: a due-date
failure is recorded on the result (whose `name` is already set); otherwise
processing continues. -/
def pmAfterName (net : Net) (cfg : MilestoneSpec) (dry : Bool) (w : World)
    (rp o r milestoneName : String) : PMResult × World × List RemoteCall :=
  match resolveDueDate cfg (refMilestoneOf net cfg) with
  | .error e =>
    ({ basePMResult rp with name := some milestoneName, error := some e }, w, [])
  | .ok dueDate => pmAfterDue net cfg dry w rp o r milestoneName dueDate

/-- Model of `process_milestone`. The `owner, repo_name = repo.split('/', 1)`
unpacking happens before the `try` block, so its `ValueError` escapes as
`Except.error`; every failure inside the `try` block is recorded on the
result's `error` field instead. Returns the result, the new world, and the
mutating remote calls issued. -/
def processMilestone (net : Net) (repo : String) (cfg : MilestoneSpec)
    (dryRun : Bool) (w : World) :
    Except String (PMResult × World × List RemoteCall) :=
  match splitFirst '/' repo with
  | none => .error "not enough values to unpack (expected 2, got 1)"
  | some (owner, repoName) =>
    match resolveMilestoneName net cfg with
    | .error e => .ok ({ basePMResult repo with error := some e }, w, [])
    | .ok milestoneName =>
      .ok (pmAfterName net cfg dryRun w repo owner repoName milestoneName)

/-- The configuration's top-level `repos` and `milestones` arrays. -/
structure RunConfig where
  repos : List String
  milestones : List MilestoneSpec

/-- The inner loop of `run`: process every milestone spec against one
repository, in list order, threading the remote state. -/
def runMilestones (net : Net) (repo : String) (specs : List MilestoneSpec)
    (dryRun : Bool) (w : World) : Except String (List PMResult × World) :=
  match specs with
  | [] => .ok ([], w)
  | s :: rest =>
    match processMilestone net repo s dryRun w with
    | .error e => .error e
    | .ok (r, w', _) =>
      match runMilestones net repo rest dryRun w' with
      | .error e => .error e
      | .ok (rs, w'') => .ok (r :: rs, w'')

/-- The outer loop of `run`: repositories outer, milestone specs inner. -/
def runRepos (net : Net) (repos : List String) (specs : List MilestoneSpec)
    (dryRun : Bool) (w : World) : Except String (List PMResult × World) :=
  match repos with
  | [] => .ok ([], w)
  | rp :: rest =>
    match runMilestones net rp specs dryRun w with
    | .error e => .error e
    | .ok (rs1, w') =>
      match runRepos net rest specs dryRun w' with
      | .error e => .error e
      | .ok (rs2, w'') => .ok (rs1 ++ rs2, w'')

/-- Model of `run`: the full cross-product in deterministic order. -/
def runCreator (net : Net) (config : RunConfig) (dryRun : Bool) (w : World) :
    Except String (List PMResult × World) :=
  runRepos net config.repos config.milestones dryRun w

/-- Result-list projection of `runCreator` (drops the final world, whose
function type has no decidable equality). -/
def runResults (net : Net) (config : RunConfig) (dryRun : Bool) (w : World) :
    Except String (List PMResult) :=
  match runCreator net config dryRun w with
  | .error e => .error e
  | .ok (rs, _) => .ok rs

/-- Two consecutive runs: a real run, then a second run (dry or real) on the
world the first run produced; returns the second run's results. -/
def runTwice (net : Net) (config : RunConfig) (dry2 : Bool) (w : World) :
    Except String (List PMResult) :=
  match runCreator net config false w with
  | .error e => .error e
  | .ok (_, w1) => runResults net config dry2 w1

/-! ## Report renderer (`_format_value_change`) -/

/-- The display string of a field value (`(not set)` for `None`, and for date
fields also for empty or literal `(not set)` values). -/
def fvcStr (isDate : Bool) (v : Option String) : String :=
  if isDate then
    match v with
    | some s => if s ≠ "" ∧ s ≠ "(not set)" then s else "(not set)"
    | none => "(not set)"
  else
    match v with
    | some s => s
    | none => "(not set)"

/-- Normalisation applied before comparing: the `(not set)` sentinel becomes
`None`. -/
def fvcNorm (s : String) : Option String :=
  if s = "(not set)" then none else some s

/-- The condition under which `_format_value_change` collapses to the
`(unchanged)` form: the normalised previous and new display values agree. -/
def DiffUnchanged (previous new : Option String) (isDate : Bool) : Prop :=
  fvcNorm (fvcStr isDate previous) = fvcNorm (fvcStr isDate new)

instance (p n : Option String) (d : Bool) : Decidable (DiffUnchanged p n d) := by
  unfold DiffUnchanged; infer_instance

/-- Model of `_format_value_change`. -/
def formatValueChange (fieldName : String) (previous new : Option String)
    (isDate : Bool) : String :=
  if DiffUnchanged previous new isDate then
    "    " ++ fieldName ++ ": " ++ fvcStr isDate new ++ " (unchanged)"
  else
    "    " ++ fieldName ++ ": " ++ fvcStr isDate previous ++ " → " ++ fvcStr isDate new

/-! ## Projections and fixtures used by the verification -/

/-- Error fields of a result list. -/
def resErrors (x : Except String (List PMResult)) : Except String (List (Option String)) :=
  x.map (List.map PMResult.error)

/-- Action fields of a result list. -/
def resActions (x : Except String (List PMResult)) :
    Except String (List (Option ActionVerb)) :=
  x.map (List.map PMResult.action)

/-- Remote calls issued by one `processMilestone`. -/
def pmCalls (x : Except String (PMResult × World × List RemoteCall)) :
    Except String (List RemoteCall) :=
  x.map (fun t => t.2.2)

/-- Milestone list of one repository after one `processMilestone`. -/
def pmRepoMilestones (o r : String)
    (x : Except String (PMResult × World × List RemoteCall)) :
    Except String (List Milestone) :=
  x.map (fun t => (t.2.1 o r).milestones)

/-- Result record of one `processMilestone`. -/
def pmResult (x : Except String (PMResult × World × List RemoteCall)) :
    Except String PMResult :=
  x.map (fun t => t.1)

/-- A transport that always reports 404. -/
def netNone : Net := fun _ _ _ => .notFound

/-- An empty remote world. -/
def emptyWorld : World := fun _ _ => { milestones := [], nextNumber := 1 }

/-- A world whose every repository holds one milestone `M` with a description
and a due date already set. -/
def worldM : World := fun _ _ =>
  { milestones := [{ number := 1, title := "M", description := some "old",
                     due_on := some "2024-01-01T00:00:00Z", state := "open" }],
    nextNumber := 2 }

/-! ## Notions used to state the claims -/

/-- A well-escaped double-quoted string body: no unescaped `"` or `\`,
every `\` followed by one escaped character. -/
def isStringBody : List Char → Bool
  | [] => true
  | c :: rest =>
    if c = '\\' then
      match rest with
      | [] => false
      | _ :: rest' => isStringBody rest'
    else if c = '"' then false
    else isStringBody rest

/-- A fully explicit, non-linked, non-renaming spec: a literal name, a
non-empty literal description, and a literal due date that parses; `n`,
`dsc`, `iso` are its resolved name, description, and ISO-8601 due date. -/
structure ExplicitSpec (cfg : MilestoneSpec) (n dsc iso : String) : Prop where
  href : refUrl cfg = none
  hren : renameVal cfg = none
  hname : cfg.name = some n
  hdesc : cfg.description = .str dsc
  hdescNe : dsc ≠ ""
  hdue : ∃ ds y m d, cfg.dueDate = .str ds ∧ parseYMD ds = some (y, m, d) ∧
    iso = formatIsoMidnight y m d

/-- The repository has been reconciled for target `(n, dsc, iso)`: the first
milestone titled `n` exists and carries exactly the resolved description and
due date. -/
def Est (st : RepoState) (n dsc iso : String) : Prop :=
  ∃ m, findMilestoneByName st.milestones n = some m ∧
    m.description = some dsc ∧ m.due_on = some iso

/-- A sane repository state: milestone numbers are pairwise distinct and
below the next fresh number (as GitHub guarantees). -/
def WFRepo (st : RepoState) : Prop :=
  st.milestones.Pairwise (fun a b => a.number ≠ b.number) ∧
    ∀ m ∈ st.milestones, m.number < st.nextNumber

/-- Every repository of the world is sane. -/
def WFWorld (w : World) : Prop := ∀ o r, WFRepo (w o r)

/-- A second-run result as the idempotence property demands: the update
action (its dry-run variant under dry run), and all three rendered field
diffs collapse to the `(unchanged)` form. -/
def GoodSecond (r : PMResult) (dry : Bool) : Prop :=
  r.action = some (if dry then ActionVerb.update else ActionVerb.updated) ∧
  DiffUnchanged r.previous_name r.new_name false ∧
  DiffUnchanged r.previous_description r.new_description false ∧
  DiffUnchanged (formatDate r.previous_due_date) (formatDate r.new_due_date) true

/-! ## Basic lemmas -/

/-- A `find_milestone_by_name` hit is a member of the list whose title equals
the searched name. -/
theorem findMilestoneByName_some {ms : List Milestone} {n : String} {m : Milestone}
    (h : findMilestoneByName ms n = some m) : m ∈ ms ∧ m.title = n := by
  unfold findMilestoneByName at h
  refine ⟨List.mem_of_find?_eq_some h, ?_⟩
  simpa using List.find?_some h

/-- With the rename lookup missing (absent rename key or no milestone with
that title), the matcher degenerates to the resolved-name lookup with a
`false` rename flag. -/
theorem matchExisting_no_rename {ms : List Milestone} {cfg : MilestoneSpec}
    {refM : Option Milestone} {n : String}
    (hmiss : (match renameVal cfg with
              | some rn => findMilestoneByName ms rn
              | none => none) = none) :
    matchExisting ms cfg refM n = (findMilestoneByName ms n, false) := by
  unfold matchExisting
  rw [hmiss]
  cases hr : (if refM.isSome then findMilestoneByName ms n else none) with
  | none => simp
  | some m2 =>
    have hfind : findMilestoneByName ms n = some m2 := by
      by_cases hs : refM.isSome
      · simpa [hs] using hr
      · simp [hs] at hr
    simp [hfind]

/-- C1: with `existingNameToRename` provided and a milestone of exactly that
title present, the matcher returns the first milestone titled
`existingNameToRename` with the found-by-rename flag set, even when another
milestone already carries the resolved name; and whenever the rename lookup
misses, the match falls back to the resolved-name lookup (steps 2 and 3 both
scan for the resolved name), first hit winning, each lookup being a
case-sensitive title-equality scan over all milestones of any state. -/
theorem c1_rename_precedence (ms : List Milestone) (cfg : MilestoneSpec)
    (refM : Option Milestone) (resolvedName rn : String) (m : Milestone)
    (h1 : renameVal cfg = some rn)
    (h2 : findMilestoneByName ms rn = some m)
    (h3 : ∃ m2 ∈ ms, m2.title = resolvedName) :
    (matchExisting ms cfg refM resolvedName = (some m, true) ∧ m ∈ ms ∧ m.title = rn) ∧
    (∀ (ms2 : List Milestone) (cfg2 : MilestoneSpec) (refM2 : Option Milestone)
        (n2 : String),
      (match renameVal cfg2 with
       | some rn2 => findMilestoneByName ms2 rn2
       | none => none) = none →
      matchExisting ms2 cfg2 refM2 n2 = (findMilestoneByName ms2 n2, false)) := by
  refine ⟨?_, fun ms2 cfg2 refM2 n2 hmiss => matchExisting_no_rename hmiss⟩
  obtain ⟨hm, ht⟩ := findMilestoneByName_some h2
  refine ⟨?_, hm, ht⟩
  unfold matchExisting
  rw [h1]
  simp [h2]

/-- C1 witness: a repository holding both a milestone titled `Old` (closed)
and one titled the resolved name `New`; the spec renaming `Old` matches the
`Old` milestone, by rename. -/
theorem c1_rename_precedence_witness :
    (renameVal { name := some "New", existingNameToRename := some "Old" } = some "Old" ∧
     findMilestoneByName
       ([⟨1, "New", none, none, "open"⟩, ⟨2, "Old", none, none, "closed"⟩] : List Milestone)
       "Old" = some (⟨2, "Old", none, none, "closed"⟩ : Milestone) ∧
     ∃ m2 ∈ ([⟨1, "New", none, none, "open"⟩, ⟨2, "Old", none, none, "closed"⟩] :
         List Milestone), m2.title = "New") ∧
    matchExisting
      ([⟨1, "New", none, none, "open"⟩, ⟨2, "Old", none, none, "closed"⟩] : List Milestone)
      { name := some "New", existingNameToRename := some "Old" } none "New" =
      (some (⟨2, "Old", none, none, "closed"⟩ : Milestone), true) :=
  ⟨⟨by decide, by decide, by decide⟩,
    ((c1_rename_precedence _ _ none "New" "Old" _ (by decide) (by decide)
      (by decide)).1).1⟩

/-- C3: when a pair resolves to an update of an existing milestone, the one
remote call issued is a `PATCH` whose body carries a `title` field exactly
when the match was found by rename and the matched title differs from the
resolved name; a match not found by rename never re-sends a title. -/
theorem c3_title_sent_iff_rename (net : Net) (rp : String) (cfg : MilestoneSpec)
    (w : World) (o r milestoneName : String) (dueDate : Option String)
    (em : Milestone) (fbr : Bool)
    (hsplit : splitFirst '/' rp = some (o, r))
    (hname : resolveMilestoneName net cfg = .ok milestoneName)
    (hdue : resolveDueDate cfg (refMilestoneOf net cfg) = .ok dueDate)
    (hmatch : matchExisting (w o r).milestones cfg (refMilestoneOf net cfg) milestoneName
      = (some em, fbr)) :
    pmCalls (processMilestone net rp cfg false w) = .ok
      [.updateCall o r em.number
        { title := if fbr && em.title != milestoneName then some milestoneName else none,
          description := resolveDescription cfg, due_on := dueDate }] ∧
    ((if fbr && em.title != milestoneName then some milestoneName else none).isSome
      ↔ (fbr = true ∧ em.title ≠ milestoneName)) ∧
    (fbr = false →
      (if fbr && em.title != milestoneName then some milestoneName else none) = none) := by
  refine ⟨?_, ?_, ?_⟩
  · simp only [pmCalls, processMilestone, pmAfterName, pmAfterDue, hsplit, hname,
      hdue, hmatch, Except.map]
    rfl
  · cases fbr with
    | false => simp
    | true =>
      by_cases ht : em.title = milestoneName
      · simp [ht]
      · simp [ht, bne_iff_ne]
  · intro hf
    rw [hf]
    simp

/-- C3 witness: a repository holding a milestone titled `Old`, a spec with
name `New` and `existingNameToRename` equal to `Old`: the match is by rename
with a differing title, so the update request carries the title. -/
theorem c3_title_sent_iff_rename_witness :
    (splitFirst '/' "o/r" = some ("o", "r") ∧
     resolveMilestoneName netNone { name := some "New", existingNameToRename := some "Old" }
       = .ok "New" ∧
     resolveDueDate { name := some "New", existingNameToRename := some "Old" }
       (refMilestoneOf netNone { name := some "New", existingNameToRename := some "Old" })
       = .ok none ∧
     matchExisting
       ((fun (_ _ : String) =>
           ({ milestones := [⟨1, "Old", none, none, "open"⟩], nextNumber := 2 } : RepoState))
         "o" "r").milestones
       { name := some "New", existingNameToRename := some "Old" }
       (refMilestoneOf netNone { name := some "New", existingNameToRename := some "Old" })
       "New" = (some (⟨1, "Old", none, none, "open"⟩ : Milestone), true)) ∧
    pmCalls (processMilestone netNone "o/r"
      { name := some "New", existingNameToRename := some "Old" } false
      (fun _ _ => ({ milestones := [⟨1, "Old", none, none, "open"⟩], nextNumber := 2 } :
        RepoState))) = .ok
      [.updateCall "o" "r" 1 { title := some "New", description := none, due_on := none }] :=
  ⟨⟨by decide, by decide, by decide, by decide⟩, by
    have h := (c3_title_sent_iff_rename netNone "o/r"
      { name := some "New", existingNameToRename := some "Old" }
      (fun _ _ => ({ milestones := [⟨1, "Old", none, none, "open"⟩], nextNumber := 2 } :
        RepoState))
      "o" "r" "New" none (⟨1, "Old", none, none, "open"⟩ : Milestone) true
      (by decide) (by decide) (by decide) (by decide)).1
    simpa using h⟩

/-- C6 counterexample: a transport failure on the reference lookup is caught
and converted to the very same `None` value that a 404 produces, so the
caller receives no distinct `ReferenceLookupFailed` error. -/
theorem c6_transport_failure_not_distinct :
    getReferenceMilestone (fun _ _ _ => .failure "500 Server Error")
      "https://github.com/o/r/milestone/1" = none ∧
    getReferenceMilestone netNone "https://github.com/o/r/milestone/1" = none :=
  ⟨rfl, rfl⟩

/-- C6 amended: on a well-formed reference URL, a 404 yields `None`
(NotFound) and every other transport failure is caught and also yields
`None`; only a successful lookup returns the milestone. The return value
does not distinguish a confirmed-absent milestone from a failed lookup
(the distinction exists only in the printed log line). -/
theorem c6_amended (net : Net) (url o r : String) (n : Nat)
    (hurl : parseMilestoneUrl url = some (o, r, n)) :
    (net o r n = .notFound → getReferenceMilestone net url = none) ∧
    (∀ msg, net o r n = .failure msg → getReferenceMilestone net url = none) ∧
    (∀ m, net o r n = .ok m → getReferenceMilestone net url = some m) := by
  unfold getReferenceMilestone
  rw [hurl]
  exact ⟨fun h => by simp [h], fun msg h => by simp [h], fun m h => by simp [h]⟩

/-- C6 amended witness: the concrete URL `https://github.com/o/r/milestone/1`
with a 404 transport. -/
theorem c6_amended_witness :
    parseMilestoneUrl "https://github.com/o/r/milestone/1" = some ("o", "r", 1) ∧
    (netNone "o" "r" 1 = .notFound →
      getReferenceMilestone netNone "https://github.com/o/r/milestone/1" = none) :=
  ⟨by decide, (c6_amended netNone "https://github.com/o/r/milestone/1" "o" "r" 1
    (by decide)).1⟩

/-- C7: after a block comment that opens and closes on the same line, the
scanner resumes copying on that line, but the multi-line-comment flag is left
set, so the following line (outside any comment) is discarded instead of
copied: the input `a /* c */ b` followed by the line `d` strips to just
`a  b`, not to `a  b` with the line `d` preserved. -/
theorem c7_block_comment_state_bug :
    stripJsonComments "a /* c */ b\nd" = "a  b" ∧
    stripJsonComments "a /* c */ b\nd" ≠ "a  b\nd" := by
  exact ⟨by decide, by decide⟩

/-- C2: for a non-linked spec, an empty-string `description` resolves to the
same `None` as an absent `description` key, and the resulting update request
omits the `description` field entirely, so the remote description is left
untouched rather than cleared: against a milestone `M` whose description is
`old`, the spec `description: ""` issues a `PATCH` with an empty body and the
stored description remains `old`. -/
theorem c2_empty_description_not_cleared :
    resolveDescription { name := some "M", description := JField.str "" } = none ∧
    resolveDescription { name := some "M" } = none ∧
    pmCalls (processMilestone netNone "o/r"
        { name := some "M", description := JField.str "" } false worldM)
      = .ok [.updateCall "o" "r" 1 { title := none, description := none, due_on := none }] ∧
    pmRepoMilestones "o" "r" (processMilestone netNone "o/r"
        { name := some "M", description := JField.str "" } false worldM)
      = .ok [⟨1, "M", some "old", some "2024-01-01T00:00:00Z", "open"⟩] :=
  ⟨rfl, rfl, by decide, by decide⟩

/-- The result record built by `pmAfterDue` carries the raw repo string. -/
theorem pmAfterDue_repo (net : Net) (cfg : MilestoneSpec) (dry : Bool) (w : World)
    (rp o r n : String) (dd : Option String) :
    (pmAfterDue net cfg dry w rp o r n dd).1.repo = rp := by
  simp only [pmAfterDue]
  rcases matchExisting (w o r).milestones cfg (refMilestoneOf net cfg) n with ⟨_ | em, fbr⟩ <;>
    cases dry <;> rfl

/-- The result record built by `pmAfterName` carries the raw repo string. -/
theorem pmAfterName_repo (net : Net) (cfg : MilestoneSpec) (dry : Bool) (w : World)
    (rp o r n : String) :
    (pmAfterName net cfg dry w rp o r n).1.repo = rp := by
  simp only [pmAfterName]
  cases resolveDueDate cfg (refMilestoneOf net cfg) with
  | error e => rfl
  | ok dd => exact pmAfterDue_repo net cfg dry w rp o r n dd

/-- A repo string containing `/` makes `process_milestone` total: every
failure inside the `try` block lands on the result's `error` field, never in
an escaping exception; and the result's `repo` field is the given repo. -/
theorem pm_ok_of_slash (net : Net) (rp : String) (cfg : MilestoneSpec) (dry : Bool)
    (w : World) (h : containsSlash rp = true) :
    ∃ res w' cs, processMilestone net rp cfg dry w = .ok (res, w', cs) ∧ res.repo = rp := by
  unfold containsSlash at h
  obtain ⟨⟨o, r⟩, hsp⟩ := Option.isSome_iff_exists.mp h
  unfold processMilestone
  rw [hsp]
  cases hn : resolveMilestoneName net cfg with
  | error e => exact ⟨_, _, _, rfl, rfl⟩
  | ok n => exact ⟨_, _, _, rfl, pmAfterName_repo net cfg dry w rp o r n⟩

/-- A repo string without `/` makes `process_milestone` raise the unpacking
`ValueError` before the `try` block. -/
theorem pm_error_of_no_slash (net : Net) (rp : String) (cfg : MilestoneSpec)
    (dry : Bool) (w : World) (h : containsSlash rp = false) :
    processMilestone net rp cfg dry w =
      .error "not enough values to unpack (expected 2, got 1)" := by
  unfold containsSlash at h
  have hnone : splitFirst '/' rp = none := by
    cases hs : splitFirst '/' rp with
    | none => rfl
    | some p => rw [hs] at h; simp at h
  unfold processMilestone
  rw [hnone]

/-- Unfolding equation: a failing head spec fails the whole inner loop. -/
theorem runMilestones_cons_error {net : Net} {rp : String} {s : MilestoneSpec}
    {rest : List MilestoneSpec} {dry : Bool} {w : World} {e : String}
    (h : processMilestone net rp s dry w = .error e) :
    runMilestones net rp (s :: rest) dry w = .error e := by
  unfold runMilestones
  rw [h]

/-- Unfolding equation: a succeeding head spec prepends its result and the
loop continues on the updated world. -/
theorem runMilestones_cons_ok {net : Net} {rp : String} {s : MilestoneSpec}
    {rest : List MilestoneSpec} {dry : Bool} {w : World} {r : PMResult}
    {w0 : World} {cs : List RemoteCall}
    (h : processMilestone net rp s dry w = .ok (r, w0, cs)) :
    runMilestones net rp (s :: rest) dry w =
      match runMilestones net rp rest dry w0 with
      | .error e => .error e
      | .ok (rs, w1) => .ok (r :: rs, w1) := by
  have step : runMilestones net rp (s :: rest) dry w =
      match processMilestone net rp s dry w with
      | .error e => .error e
      | .ok (r, w', _) =>
        match runMilestones net rp rest dry w' with
        | .error e => .error e
        | .ok (rs, w'') => .ok (r :: rs, w'') := rfl
  rw [step, h]

/-- Unfolding equation: a failing head repository fails the whole run. -/
theorem runRepos_cons_error {net : Net} {rp : String} {rest : List String}
    {specs : List MilestoneSpec} {dry : Bool} {w : World} {e : String}
    (h : runMilestones net rp specs dry w = .error e) :
    runRepos net (rp :: rest) specs dry w = .error e := by
  unfold runRepos
  rw [h]

/-- Unfolding equation: a succeeding head repository appends its results and
the run continues on the updated world. -/
theorem runRepos_cons_ok {net : Net} {rp : String} {rest : List String}
    {specs : List MilestoneSpec} {dry : Bool} {w : World} {rs1 : List PMResult}
    {w1 : World}
    (h : runMilestones net rp specs dry w = .ok (rs1, w1)) :
    runRepos net (rp :: rest) specs dry w =
      match runRepos net rest specs dry w1 with
      | .error e => .error e
      | .ok (rs2, w2) => .ok (rs1 ++ rs2, w2) := by
  have step : runRepos net (rp :: rest) specs dry w =
      match runMilestones net rp specs dry w with
      | .error e => .error e
      | .ok (rs1, w') =>
        match runRepos net rest specs dry w' with
        | .error e => .error e
        | .ok (rs2, w'') => .ok (rs1 ++ rs2, w'') := rfl
  rw [step, h]

/-- A batch containing a slash-free repo string aborts with the escaped
`ValueError` as soon as that repository's first spec is processed. -/
theorem runRepos_error_of_bad (net : Net) (repo : String)
    (hbad : containsSlash repo = false) (specs : List MilestoneSpec)
    (hs : specs ≠ []) (dry : Bool) :
    ∀ (pre post : List String) (w : World),
      ∃ e, runRepos net (pre ++ repo :: post) specs dry w = .error e := by
  intro pre
  induction pre with
  | nil =>
    intro post w
    cases specs with
    | nil => exact absurd rfl hs
    | cons s rest =>
      refine ⟨"not enough values to unpack (expected 2, got 1)", ?_⟩
      rw [List.nil_append]
      exact runRepos_cons_error
        (runMilestones_cons_error (pm_error_of_no_slash net repo s dry w hbad))
  | cons rp pre ih =>
    intro post w
    rw [List.cons_append]
    cases hr : runMilestones net rp specs dry w with
    | error e => exact ⟨e, runRepos_cons_error hr⟩
    | ok p =>
      obtain ⟨e, he⟩ := ih post p.2
      refine ⟨e, ?_⟩
      rw [runRepos_cons_ok hr, he]

/-- C10: `process_milestone` is exception-free exactly under the precondition
that the repo string contains `/`: with a slash it always returns a result
(any resolution failure recorded on the result's `error` field), without one
it raises the unpacking `ValueError` out of the function, and a batch whose
repo list contains such a string aborts with that error instead of recording
it on the pair's result. -/
theorem c10_repo_split_precondition (net : Net) (repo : String)
    (cfg : MilestoneSpec) (dry : Bool) (w : World) :
    (containsSlash repo = true →
      ∃ res w' cs, processMilestone net repo cfg dry w = .ok (res, w', cs)) ∧
    (containsSlash repo = false →
      processMilestone net repo cfg dry w =
        .error "not enough values to unpack (expected 2, got 1)") ∧
    (containsSlash repo = false →
      ∀ (pre post : List String) (specs : List MilestoneSpec), specs ≠ [] →
        ∃ e, runRepos net (pre ++ repo :: post) specs dry w = .error e) := by
  refine ⟨fun h => ?_, fun h => pm_error_of_no_slash net repo cfg dry w h,
    fun h pre post specs hs => runRepos_error_of_bad net repo h specs hs dry pre post w⟩
  obtain ⟨res, w', cs, heq, _⟩ := pm_ok_of_slash net repo cfg dry w h
  exact ⟨res, w', cs, heq⟩

/-- C10 witness: the repo string `norepo` (no slash) with one spec: the pair
itself errors out of `process_milestone` and the whole batch aborts. -/
theorem c10_repo_split_precondition_witness :
    containsSlash "norepo" = false ∧
    processMilestone netNone "norepo" { name := some "M" } false emptyWorld =
      .error "not enough values to unpack (expected 2, got 1)" ∧
    (∃ e, runRepos netNone ["norepo"] [{ name := some "M" }] false emptyWorld =
      .error e) :=
  ⟨by decide,
   (c10_repo_split_precondition netNone "norepo" { name := some "M" } false
      emptyWorld).2.1 (by decide),
   (c10_repo_split_precondition netNone "norepo" { name := some "M" } false
      emptyWorld).2.2 (by decide) [] [] [{ name := some "M" }] (by simp)⟩

/-- The inner loop over the milestone specs of one slash-containing
repository always succeeds and yields one result per spec, in order, each
carrying the repo string. -/
theorem runMilestones_shape (net : Net) (rp : String) (dry : Bool)
    (h : containsSlash rp = true) :
    ∀ (specs : List MilestoneSpec) (w : World),
      ∃ rs w', runMilestones net rp specs dry w = .ok (rs, w') ∧
        rs.length = specs.length ∧ rs.map PMResult.repo = specs.map (fun _ => rp) := by
  intro specs
  induction specs with
  | nil => intro w; exact ⟨[], w, rfl, rfl, rfl⟩
  | cons s rest ih =>
    intro w
    obtain ⟨r, w0, cs, hpm, hrepo⟩ := pm_ok_of_slash net rp s dry w h
    obtain ⟨rs, w', hrun, hlen, hmap⟩ := ih w0
    refine ⟨r :: rs, w', ?_, ?_, ?_⟩
    · rw [runMilestones_cons_ok hpm, hrun]
    · simp [hlen]
    · simp [hmap, hrepo]

/-- The outer loop yields exactly one result per (repository, spec) pair, in
repos-outer milestones-inner order. -/
theorem runRepos_shape (net : Net) (specs : List MilestoneSpec) (dry : Bool) :
    ∀ (repos : List String), (∀ rp ∈ repos, containsSlash rp = true) →
      ∀ w, ∃ rs w', runRepos net repos specs dry w = .ok (rs, w') ∧
        rs.length = repos.length * specs.length ∧
        rs.map PMResult.repo = (repos.map (fun rp => specs.map (fun _ => rp))).flatten := by
  intro repos
  induction repos with
  | nil => intro _ w; exact ⟨[], w, rfl, by simp, rfl⟩
  | cons rp rest ih =>
    intro hall w
    obtain ⟨rs1, w1, h1, hlen1, hmap1⟩ :=
      runMilestones_shape net rp dry (hall rp (by simp)) specs w
    obtain ⟨rs2, w2, h2, hlen2, hmap2⟩ := ih (fun x hx => hall x (by simp [hx])) w1
    refine ⟨rs1 ++ rs2, w2, ?_, ?_, ?_⟩
    · rw [runRepos_cons_ok h1, h2]
    · simp only [List.length_append, hlen1, hlen2, List.length_cons]
      ring
    · simp [hmap1, hmap2]

/-- C4: for every batch of valid `owner/repo` targets and specs, the run
returns exactly `repos x specs` results in deterministic repos-outer,
milestones-inner order; and each (repo, spec) pair's processing always
returns a result (any exception during its resolution is caught at the pair
boundary and recorded on that result's `error` field), so one failing pair
never aborts the batch. -/
theorem c4_batch_shape (net : Net) (repos : List String)
    (specs : List MilestoneSpec) (dry : Bool) (w : World)
    (h : ∀ rp ∈ repos, containsSlash rp = true) :
    (∃ rs w', runCreator net ⟨repos, specs⟩ dry w = .ok (rs, w') ∧
      rs.length = repos.length * specs.length ∧
      rs.map PMResult.repo = (repos.map (fun rp => specs.map (fun _ => rp))).flatten) ∧
    (∀ rp ∈ repos, ∀ cfg ∈ specs, ∀ w0 : World,
      ∃ res w' cs, processMilestone net rp cfg dry w0 = .ok (res, w', cs)) := by
  constructor
  · exact runRepos_shape net specs dry repos h w
  · intro rp hrp cfg _ w0
    obtain ⟨res, w', cs, heq, _⟩ := pm_ok_of_slash net rp cfg dry w0 (h rp hrp)
    exact ⟨res, w', cs, heq⟩

/-- C4 witness: one repository and three specs whose second has an invalid
due date: the run still yields three results, the second carrying the
`InvalidDateFormat` error while the first and third are successful creates. -/
theorem c4_batch_shape_witness :
    (∀ rp ∈ ["acme/api"], containsSlash rp = true) ∧
    (∃ rs w', runCreator netNone
      ⟨["acme/api"],
       [{ name := some "M1", description := .str "d1", dueDate := .str "2025-01-02" },
        { name := some "M2", dueDate := .str "bad" },
        { name := some "M3", description := .str "d3", dueDate := .str "2025-01-03" }]⟩
      false emptyWorld = .ok (rs, w') ∧
      rs.length = 1 * 3 ∧
      rs.map PMResult.repo =
        (["acme/api"].map (fun rp =>
          ([{ name := some "M1", description := .str "d1", dueDate := .str "2025-01-02" },
            { name := some "M2", dueDate := .str "bad" },
            { name := some "M3", description := .str "d3", dueDate := .str "2025-01-03" }] :
            List MilestoneSpec).map (fun _ => rp))).flatten) ∧
    resErrors (runResults netNone
      ⟨["acme/api"],
       [{ name := some "M1", description := .str "d1", dueDate := .str "2025-01-02" },
        { name := some "M2", dueDate := .str "bad" },
        { name := some "M3", description := .str "d3", dueDate := .str "2025-01-03" }]⟩
      false emptyWorld) =
      .ok [none, some "Invalid date format: bad. Expected YYYY-MM-DD", none] ∧
    resActions (runResults netNone
      ⟨["acme/api"],
       [{ name := some "M1", description := .str "d1", dueDate := .str "2025-01-02" },
        { name := some "M2", dueDate := .str "bad" },
        { name := some "M3", description := .str "d3", dueDate := .str "2025-01-03" }]⟩
      false emptyWorld) =
      .ok [some .created, none, some .created] :=
  ⟨by decide,
   (c4_batch_shape netNone ["acme/api"]
      [{ name := some "M1", description := .str "d1", dueDate := .str "2025-01-02" },
       { name := some "M2", dueDate := .str "bad" },
       { name := some "M3", description := .str "d3", dueDate := .str "2025-01-03" }]
      false emptyWorld (by decide)).1,
   by decide, by decide⟩

/-- Splitting on an absent separator yields the single whole line. -/
theorem splitOnCharAux_no_sep (sep : Char) :
    ∀ (l acc : List Char), sep ∉ l → splitOnCharAux sep l acc = [acc.reverse ++ l] := by
  intro l
  induction l with
  | nil => intro acc _; simp [splitOnCharAux]
  | cons c cs ih =>
    intro acc hmem
    have hc : c ≠ sep := fun h => hmem (h ▸ List.mem_cons_self c cs)
    have hcs : sep ∉ cs := fun h => hmem (List.mem_cons_of_mem c h)
    simp [splitOnCharAux, hc, ih (c :: acc) hcs]

/-- Splitting on an absent separator yields the single whole line. -/
theorem splitOnChar_no_sep (sep : Char) (l : List Char) (h : sep ∉ l) :
    splitOnChar sep l = [l] := by
  simpa using splitOnCharAux_no_sep sep l [] h

/-- Outside a string, characters that are neither `"` nor `/` are copied
verbatim by the scanner, which continues on the remainder in the same state. -/
theorem scanLine_plain (p : List Char) (hp : ∀ c ∈ p, c ≠ '"' ∧ c ≠ '/') :
    ∀ rest, scanLine (p ++ rest) false false 0 =
      (p ++ (scanLine rest false false 0).1, (scanLine rest false false 0).2) := by
  induction p with
  | nil => intro rest; simp
  | cons c cs ih =>
    intro rest
    obtain ⟨hq, hs⟩ := hp c (by simp)
    have ihr := ih (fun x hx => hp x (by simp [hx])) rest
    simp [scanLine, hq, hs, ihr]

/-- Inside a string, a well-escaped body followed by the closing quote is
copied verbatim (comment markers in the body included), scanning resuming
outside the string after the quote. -/
theorem scanLine_body (n : Nat) : ∀ s : List Char, s.length ≤ n →
    isStringBody s = true → ∀ rest,
      scanLine (s ++ '"' :: rest) true false 0 =
        (s ++ '"' :: (scanLine rest false false 0).1,
         (scanLine rest false false 0).2) := by
  induction n with
  | zero =>
    intro s hlen hb rest
    have hnil : s = [] := List.eq_nil_of_length_eq_zero (Nat.le_zero.mp hlen)
    subst hnil
    simp [scanLine]
  | succ n ih =>
    intro s hlen hb rest
    match s with
    | [] => simp [scanLine]
    | c :: s' =>
      by_cases hc : c = '\\'
      · subst hc
        match s' with
        | [] => rw [isStringBody.eq_def] at hb; simp at hb
        | c2 :: s'' =>
          have hb'' : isStringBody s'' = true := by
            rw [isStringBody.eq_def] at hb
            simpa using hb
          have hlen'' : s''.length ≤ n := by
            simp only [List.length_cons] at hlen
            omega
          have ihr := ih s'' hlen'' hb'' rest
          simp [scanLine, ihr]
      · have hq : c ≠ '"' := by
          intro h
          rw [h] at hb
          rw [isStringBody.eq_def] at hb
          simp at hb
        have hb' : isStringBody s' = true := by
          rw [isStringBody.eq_def] at hb
          simp [hc, hq] at hb
          exact hb
        have hlen' : s'.length ≤ n := by
          simp only [List.length_cons] at hlen
          omega
        have ihr := ih s' hlen' hb' rest
        simp [scanLine, hc, hq, ihr]

/-- C8: comment markers inside a double-quoted string literal are never
treated as comment markers: for every line made of marker-free text, then a
string literal with a well-escaped body (which may contain `//`, `/*`, and
escaped quotes), then marker-free text, the stripper returns the input
unchanged. -/
theorem c8_string_literal_markers (p s q : List Char)
    (hp : ∀ c ∈ p, c ≠ '"' ∧ c ≠ '/' ∧ c ≠ '\n')
    (hs : isStringBody s = true) (hsn : '\n' ∉ s)
    (hq : ∀ c ∈ q, c ≠ '"' ∧ c ≠ '/' ∧ c ≠ '\n') :
    stripJsonComments (String.mk (p ++ '"' :: (s ++ '"' :: q))) =
      String.mk (p ++ '"' :: (s ++ '"' :: q)) := by
  have hnl : '\n' ∉ p ++ '"' :: (s ++ '"' :: q) := by
    intro hmem
    rcases List.mem_append.mp hmem with h | h
    · exact (hp _ h).2.2 rfl
    · rcases List.mem_cons.mp h with h | h
      · exact absurd h.symm (by decide)
      · rcases List.mem_append.mp h with h | h
        · exact hsn h
        · rcases List.mem_cons.mp h with h | h
          · exact absurd h.symm (by decide)
          · exact (hq _ h).2.2 rfl
  have hscanq : scanLine (q ++ []) false false 0 = (q ++ [], false) := by
    rw [scanLine_plain q (fun c hc => ⟨(hq c hc).1, (hq c hc).2.1⟩) []]
    simp [scanLine]
  have hscan : scanLine (p ++ '"' :: (s ++ '"' :: q)) false false 0 =
      (p ++ '"' :: (s ++ '"' :: q), false) := by
    rw [scanLine_plain p (fun c hc => ⟨(hp c hc).1, (hp c hc).2.1⟩)]
    have h1 : scanLine ('"' :: (s ++ '"' :: q)) false false 0 =
        ('"' :: (scanLine (s ++ '"' :: q) true false 0).1,
         (scanLine (s ++ '"' :: q) true false 0).2) := by
      simp [scanLine]
    have h2 := scanLine_body s.length s (Nat.le_refl _) hs q
    have h3 : scanLine (q ++ []) false false 0 = (q ++ [], false) := hscanq
    rw [h1, h2]
    have hq0 : scanLine q false false 0 = (q, false) := by simpa using h3
    rw [hq0]
  unfold stripJsonComments
  have htl : (String.mk (p ++ '"' :: (s ++ '"' :: q))).toList =
      p ++ '"' :: (s ++ '"' :: q) := rfl
  rw [htl, splitOnChar_no_sep '\n' _ hnl]
  simp only [stripLines, hscan]
  rfl

/-- C8 witness: the one-line input consisting exactly of the string literal
`"// not a comment"` survives the stripper unchanged. -/
theorem c8_string_literal_markers_witness :
    isStringBody "// not a comment".toList = true ∧
    stripJsonComments "\"// not a comment\"" = "\"// not a comment\"" :=
  ⟨by decide,
   c8_string_literal_markers [] "// not a comment".toList []
     (by simp) (by decide) (by decide) (by simp)⟩

/-! ## Digit-rendering lemmas -/

/-- The fuel of `natDigitsAux` does not matter once it exceeds the number. -/
theorem natDigitsAux_fuel : ∀ (f1 : Nat), ∀ (f2 n : Nat), n < f1 → n < f2 →
    natDigitsAux f1 n = natDigitsAux f2 n := by
  intro f1
  induction f1 with
  | zero => intro f2 n h1 _; omega
  | succ g1 ih =>
    intro f2 n h1 h2
    cases f2 with
    | zero => omega
    | succ g2 =>
      simp only [natDigitsAux]
      by_cases hn : n < 10
      · simp [hn]
      · have hdiv : n / 10 < n := Nat.div_lt_self (by omega) (by omega)
        simp only [hn, if_false]
        rw [ih g2 (n / 10) (by omega) (by omega)]

/-- One-step unfolding of `natDigits`. -/
theorem natDigits_unfold (n : Nat) :
    natDigits n = if n < 10 then [digitChar n]
      else natDigits (n / 10) ++ [digitChar (n % 10)] := by
  unfold natDigits
  rw [show natDigitsAux (n + 1) n =
      (if n < 10 then [digitChar n]
       else natDigitsAux n (n / 10) ++ [digitChar (n % 10)]) from rfl]
  by_cases hn : n < 10
  · simp [hn]
  · have hdiv : n / 10 < n := Nat.div_lt_self (by omega) (by omega)
    simp only [hn, if_false]
    rw [natDigitsAux_fuel n (n / 10 + 1) (n / 10) (by omega) (by omega)]

/-- The digit character of a digit value has the expected character code. -/
theorem digitChar_toNat (k : Nat) (h : k < 10) : (digitChar k).toNat = 48 + k := by
  interval_cases k <;> decide

/-- The digit character of a digit value is a decimal digit. -/
theorem digitChar_isDigitChar (k : Nat) (h : k < 10) :
    isDigitChar (digitChar k) = true := by
  interval_cases k <;> decide

/-- Decimal renderings are never empty. -/
theorem natDigits_ne_nil (n : Nat) : natDigits n ≠ [] := by
  rw [natDigits_unfold]
  by_cases hn : n < 10 <;> simp [hn]

/-- Every character of a decimal rendering is a decimal digit. -/
theorem natDigits_all (n : Nat) : ∀ c ∈ natDigits n, isDigitChar c = true := by
  induction n using Nat.strong_induction_on with
  | _ n ih =>
    rw [natDigits_unfold]
    by_cases hn : n < 10
    · simp only [hn, if_true]
      intro c hc
      rw [List.mem_singleton] at hc
      subst hc
      exact digitChar_isDigitChar n hn
    · simp only [hn, if_false]
      intro c hc
      rcases List.mem_append.mp hc with h | h
      · exact ih (n / 10) (Nat.div_lt_self (by omega) (by omega)) c h
      · rw [List.mem_singleton] at h
        subst h
        exact digitChar_isDigitChar (n % 10) (by omega)

/-- Folding a digit-valued accumulator over a list shifts by a power of ten. -/
theorem digitsVal_shift : ∀ (l : List Char) (a : Nat),
    l.foldl (fun x c => x * 10 + (c.toNat - 48)) a =
      a * 10 ^ l.length + digitsVal l := by
  intro l
  induction l with
  | nil => intro a; simp [digitsVal]
  | cons c l ih =>
    intro a
    have h1 := ih (a * 10 + (c.toNat - 48))
    have h2 := ih (c.toNat - 48)
    simp only [List.foldl_cons, digitsVal] at *
    rw [h1]
    rw [show (0 : Nat) * 10 + (c.toNat - 48) = c.toNat - 48 by omega, h2]
    simp [List.length_cons, Nat.pow_succ]
    ring

/-- Value of a rendered number: the decimal rendering evaluates back to the
number. -/
theorem digitsVal_natDigits (n : Nat) : digitsVal (natDigits n) = n := by
  induction n using Nat.strong_induction_on with
  | _ n ih =>
    rw [natDigits_unfold]
    by_cases hn : n < 10
    · simp only [hn, if_true, digitsVal, List.foldl_cons, List.foldl_nil]
      rw [digitChar_toNat n hn]
      omega
    · simp only [hn, if_false, digitsVal, List.foldl_append, List.foldl_cons,
        List.foldl_nil]
      have hih := ih (n / 10) (Nat.div_lt_self (by omega) (by omega))
      unfold digitsVal at hih
      rw [hih, digitChar_toNat (n % 10) (by omega)]
      omega

/-- Length bound on the decimal rendering. -/
theorem natDigits_len_le : ∀ (w n : Nat), n < 10 ^ w → 1 ≤ w →
    (natDigits n).length ≤ w := by
  intro w
  induction w with
  | zero => intro n _ h; omega
  | succ v ih =>
    intro n hlt _
    rw [natDigits_unfold]
    by_cases hn : n < 10
    · simp [hn]
    · have hv : 1 ≤ v := by
        by_contra hcon
        have : v = 0 := by omega
        subst this
        simp [Nat.pow_succ] at hlt
        omega
      have hdivlt : n / 10 < 10 ^ v := by
        rw [Nat.div_lt_iff_lt_mul (by omega)]
        calc n < 10 ^ (v + 1) := hlt
        _ = 10 ^ v * 10 := by rw [Nat.pow_succ]
      have := ih (n / 10) hdivlt hv
      simp only [hn, if_false, List.length_append, List.length_singleton]
      omega

/-- Padded renderings have exactly the requested width once it suffices. -/
theorem padChars_length (w n : Nat) (h : (natDigits n).length ≤ w) :
    (padChars w n).length = w := by
  simp [padChars]
  omega

/-- Every character of a padded rendering is a decimal digit. -/
theorem padChars_all (w n : Nat) : ∀ c ∈ padChars w n, isDigitChar c = true := by
  intro c hc
  rcases List.mem_append.mp hc with h | h
  · rw [List.eq_of_mem_replicate h]
    decide
  · exact natDigits_all n c h

/-- A decimal digit is none of the structural characters of the date
formats. -/
theorem isDigitChar_ne (c : Char) (h : isDigitChar c = true) :
    c ≠ '-' ∧ c ≠ 'Z' ∧ c ≠ '\n' ∧ c ≠ ':' ∧ c ≠ '+' ∧ c ≠ 'T' ∧ c ≠ ' ' := by
  unfold isDigitChar at h
  simp only [Bool.and_eq_true, decide_eq_true_eq] at h
  refine ⟨?_, ?_, ?_, ?_, ?_, ?_, ?_⟩ <;> (intro hc; subst hc; revert h; decide)

/-- Leading zeros do not change the numeric value. -/
theorem digitsVal_replicate_zero : ∀ (k : Nat) (l : List Char),
    digitsVal (List.replicate k '0' ++ l) = digitsVal l := by
  intro k
  induction k with
  | zero => intro l; simp
  | succ j ih =>
    intro l
    have : List.replicate (j + 1) '0' ++ l = '0' :: (List.replicate j '0' ++ l) := by
      simp [List.replicate_succ]
    rw [this]
    simp only [digitsVal, List.foldl_cons]
    have : (0 : Nat) * 10 + ('0'.toNat - 48) = 0 := by decide
    rw [this]
    exact ih l

/-- Parsing a padded decimal rendering recovers the number. -/
theorem listToNat?_padChars (w n : Nat) :
    listToNat? (padChars w n) = some n := by
  unfold listToNat?
  have hne : padChars w n ≠ [] := by
    unfold padChars
    intro hcon
    rcases List.append_eq_nil.mp hcon with ⟨_, h2⟩
    exact natDigits_ne_nil n h2
  have hall : (padChars w n).all isDigitChar = true :=
    List.all_eq_true.mpr (padChars_all w n)
  rw [if_pos ⟨hne, hall⟩]
  unfold padChars
  rw [digitsVal_replicate_zero, digitsVal_natDigits]

/-- Splitting consumes a sep-free chunk up to the first separator. -/
theorem splitOnCharAux_chunk (sep : Char) :
    ∀ (a rest acc : List Char), sep ∉ a →
      splitOnCharAux sep (a ++ sep :: rest) acc =
        (acc.reverse ++ a) :: splitOnCharAux sep rest [] := by
  intro a
  induction a with
  | nil => intro rest acc _; simp [splitOnCharAux]
  | cons c cs ih =>
    intro rest acc hmem
    have hc : c ≠ sep := fun h => hmem (h ▸ List.mem_cons_self c cs)
    have hcs : sep ∉ cs := fun h => hmem (List.mem_cons_of_mem c h)
    simp [splitOnCharAux, hc, ih rest (c :: acc) hcs]

/-- Splitting a three-chunk list on its separators. -/
theorem splitOnChar_three (sep : Char) (a b c : List Char)
    (ha : sep ∉ a) (hb : sep ∉ b) (hc : sep ∉ c) :
    splitOnChar sep (a ++ sep :: (b ++ sep :: c)) = [a, b, c] := by
  unfold splitOnChar
  rw [splitOnCharAux_chunk sep a (b ++ sep :: c) [] ha]
  rw [splitOnCharAux_chunk sep b c [] hb]
  rw [splitOnCharAux_no_sep sep c [] hc]
  simp

/-- Replacement distributes over appending. -/
theorem replaceZ_append (a b : List Char) :
    replaceZ (a ++ b) = replaceZ a ++ replaceZ b := by
  simp [replaceZ]

/-- Replacement is the identity on `Z`-free text. -/
theorem replaceZ_id (l : List Char) (h : ∀ c ∈ l, c ≠ 'Z') : replaceZ l = l := by
  induction l with
  | nil => simp [replaceZ]
  | cons c cs ih =>
    have hc : c ≠ 'Z' := h c (by simp)
    simp only [replaceZ, List.map_cons, List.flatten_cons, hc, if_neg hc]
    rw [show (List.map (fun c => if c = 'Z' then "+00:00".toList else [c]) cs).flatten
        = replaceZ cs from rfl]
    rw [ih (fun x hx => h x (by simp [hx]))]
    rfl

/-- The month count of `daysInMonth` never exceeds 31. -/
theorem daysInMonth_le (y m : Nat) : daysInMonth y m ≤ 31 := by
  unfold daysInMonth
  split
  · split <;> omega
  · split <;> omega

/-- No character of the padded `YYYY-MM-DD` rendering is any of the
structural characters that matter downstream. -/
theorem ymdChars_no (y m d : Nat) :
    ∀ c ∈ ymdChars y m d, c = '-' ∨ isDigitChar c = true := by
  intro c hc
  unfold ymdChars at hc
  rcases List.mem_append.mp hc with h | h
  · exact Or.inr (padChars_all 4 y c h)
  · rcases List.mem_cons.mp h with h | h
    · exact Or.inl h
    · rcases List.mem_append.mp h with h | h
      · exact Or.inr (padChars_all 2 m c h)
      · rcases List.mem_cons.mp h with h | h
        · exact Or.inl h
        · exact Or.inr (padChars_all 2 d c h)

/-- The padded rendering contains no `Z`. -/
theorem ymdChars_no_Z (y m d : Nat) : ∀ c ∈ ymdChars y m d, c ≠ 'Z' := by
  intro c hc
  rcases ymdChars_no y m d c hc with h | h
  · subst h; decide
  · exact (isDigitChar_ne c h).2.1

/-- Length of the padded rendering under the width bounds. -/
theorem ymdChars_length (y m d : Nat) (hy : y ≤ 9999) (hm : m ≤ 99) (hd : d ≤ 99) :
    (ymdChars y m d).length = 10 := by
  have l4 : (natDigits y).length ≤ 4 := natDigits_len_le 4 y (by omega) (by omega)
  have l2m : (natDigits m).length ≤ 2 := natDigits_len_le 2 m (by omega) (by omega)
  have l2d : (natDigits d).length ≤ 2 := natDigits_len_le 2 d (by omega) (by omega)
  simp [ymdChars, padChars_length 4 y l4, padChars_length 2 m l2m,
    padChars_length 2 d l2d]

/-- Strict `YYYY-MM-DD` parse of the padded rendering of a valid date. -/
theorem parseIsoDateChars_ymd (y m d : Nat)
    (hy1 : 1 ≤ y) (hy : y ≤ 9999) (hm1 : 1 ≤ m) (hm : m ≤ 12)
    (hd1 : 1 ≤ d) (hd : d ≤ daysInMonth y m) :
    parseIsoDateChars (ymdChars y m d) = some (y, m, d) := by
  have l4 : (natDigits y).length ≤ 4 := natDigits_len_le 4 y (by omega) (by omega)
  have l2m : (natDigits m).length ≤ 2 := natDigits_len_le 2 m (by omega) (by omega)
  have l2d : (natDigits d).length ≤ 2 :=
    natDigits_len_le 2 d (by have := daysInMonth_le y m; omega) (by omega)
  have hsplit : splitOnChar '-' (ymdChars y m d) =
      [padChars 4 y, padChars 2 m, padChars 2 d] := by
    unfold ymdChars
    refine splitOnChar_three '-' _ _ _ ?_ ?_ ?_ <;>
      (intro hmem; have := padChars_all _ _ _ hmem; exact (isDigitChar_ne _ this).1 rfl)
  unfold parseIsoDateChars
  rw [hsplit]
  simp only [listToNat?_padChars]
  rw [if_pos]
  exact ⟨padChars_length 4 y l4, padChars_length 2 m l2m, padChars_length 2 d l2d,
    hy1, hm1, hm, hd1, hd⟩

/-- Relaxed `strptime` parse of the padded rendering of a valid date. -/
theorem parseYMD_ymd (s : String) (y m d : Nat)
    (hs : s.toList = ymdChars y m d)
    (hy1 : 1 ≤ y) (hy : y ≤ 9999) (hm1 : 1 ≤ m) (hm : m ≤ 12)
    (hd1 : 1 ≤ d) (hd : d ≤ daysInMonth y m) :
    parseYMD s = some (y, m, d) := by
  have l4 : (natDigits y).length ≤ 4 := natDigits_len_le 4 y (by omega) (by omega)
  have l2m : (natDigits m).length ≤ 2 := natDigits_len_le 2 m (by omega) (by omega)
  have l2d : (natDigits d).length ≤ 2 :=
    natDigits_len_le 2 d (by have := daysInMonth_le y m; omega) (by omega)
  have hsplit : splitOnChar '-' (ymdChars y m d) =
      [padChars 4 y, padChars 2 m, padChars 2 d] := by
    unfold ymdChars
    refine splitOnChar_three '-' _ _ _ ?_ ?_ ?_ <;>
      (intro hmem; have := padChars_all _ _ _ hmem; exact (isDigitChar_ne _ this).1 rfl)
  unfold parseYMD
  rw [hs, hsplit]
  simp only [listToNat?_padChars]
  rw [if_pos]
  exact ⟨padChars_length 4 y l4, hy1, Or.inr (padChars_length 2 m l2m), hm1, hm,
    Or.inr (padChars_length 2 d l2d), hd1, hd⟩

/-- The midnight ISO rendering is never the empty string. -/
theorem formatIsoMidnight_ne_empty (y m d : Nat) : formatIsoMidnight y m d ≠ "" := by
  intro hcon
  have hdata : ymdChars y m d ++ "T00:00:00Z".toList = [] := by
    have h1 : (formatIsoMidnight y m d).toList = "".toList := by
      rw [hcon]
    exact h1
  rcases List.append_eq_nil.mp hdata with ⟨_, h2⟩
  exact absurd h2 (by decide)

/-- The display formatter inverts the midnight ISO rendering back to the
`YYYY-MM-DD` date part. -/
theorem formatDate_iso (y m d : Nat)
    (hy1 : 1 ≤ y) (hy : y ≤ 9999) (hm1 : 1 ≤ m) (hm : m ≤ 12)
    (hd1 : 1 ≤ d) (hd : d ≤ daysInMonth y m) :
    formatDate (some (formatIsoMidnight y m d)) = some (ymdRender y m d) := by
  have hlen : (ymdChars y m d).length = 10 :=
    ymdChars_length y m d hy (by omega) (by have := daysInMonth_le y m; omega)
  have hrep : replaceZ ((formatIsoMidnight y m d).toList) =
      ymdChars y m d ++ "T00:00:00+00:00".toList := by
    have : (formatIsoMidnight y m d).toList =
        ymdChars y m d ++ "T00:00:00Z".toList := rfl
    rw [this, replaceZ_append, replaceZ_id (ymdChars y m d) (ymdChars_no_Z y m d)]
    rfl
  have hparse : parseIsoDatetime (ymdChars y m d ++ "T00:00:00+00:00".toList) =
      some (y, m, d) := by
    unfold parseIsoDatetime
    have htake : (ymdChars y m d ++ "T00:00:00+00:00".toList).take 10 =
        ymdChars y m d := by
      rw [← hlen]
      exact List.take_left _ _
    have hdrop : (ymdChars y m d ++ "T00:00:00+00:00".toList).drop 10 =
        "T00:00:00+00:00".toList := by
      rw [← hlen]
      exact List.drop_left _ _
    rw [htake, hdrop, parseIsoDateChars_ymd y m d hy1 hy hm1 hm hd1 hd]
    rfl
  simp only [formatDate]
  rw [if_neg (formatIsoMidnight_ne_empty y m d), hrep, hparse]

/-- C9: for a non-linked spec, a due date given in valid zero-padded
`YYYY-MM-DD` form parses, resolves to the midnight-UTC ISO-8601 timestamp
(the date with `T00:00:00Z` appended) sent onward, and the diff display
renders that timestamp back as the original `YYYY-MM-DD` string; a non-empty
due date that does not parse raises `InvalidDateFormat` naming the offending
string. -/
theorem c9_date_round_trip :
    (∀ (cfg : MilestoneSpec) (refM : Option Milestone) (s : String) (y m d : Nat),
      refUrl cfg = none → cfg.dueDate = .str s →
      s.toList = ymdChars y m d →
      1 ≤ y → y ≤ 9999 → 1 ≤ m → m ≤ 12 → 1 ≤ d → d ≤ daysInMonth y m →
      parseYMD s = some (y, m, d) ∧
      resolveDueDate cfg refM = .ok (some (formatIsoMidnight y m d)) ∧
      formatIsoMidnight y m d = s ++ "T00:00:00Z" ∧
      formatDate (some (formatIsoMidnight y m d)) = some s) ∧
    (∀ (cfg : MilestoneSpec) (refM : Option Milestone) (s : String),
      refUrl cfg = none → cfg.dueDate = .str s → s ≠ "" → parseYMD s = none →
      resolveDueDate cfg refM =
        .error ("Invalid date format: " ++ s ++ ". Expected YYYY-MM-DD")) := by
  constructor
  · intro cfg refM s y m d href hdue hs hy1 hy hm1 hm hd1 hd
    have hparse : parseYMD s = some (y, m, d) :=
      parseYMD_ymd s y m d hs hy1 hy hm1 hm hd1 hd
    have hsne : s ≠ "" := by
      intro hcon
      subst hcon
      have : ymdChars y m d = [] := hs.symm
      have h4 : (ymdChars y m d).length = 10 :=
        ymdChars_length y m d hy (by omega) (by have := daysInMonth_le y m; omega)
      rw [this] at h4
      simp at h4
    have hmk : ymdRender y m d = s := by
      unfold ymdRender
      rw [← hs]
      rfl
    refine ⟨hparse, ?_, ?_, ?_⟩
    · simp only [resolveDueDate, href, hdue]
      rw [if_neg hsne, hparse]
    · show String.mk (ymdChars y m d ++ "T00:00:00Z".toList) = s ++ "T00:00:00Z"
      rw [← hs]
      rfl
    · rw [formatDate_iso y m d hy1 hy hm1 hm hd1 hd, hmk]
  · intro cfg refM s href hdue hsne hparse
    simp only [resolveDueDate, href, hdue]
    rw [if_neg hsne, hparse]

/-- C9 witness: the date `2025-03-01` round-trips (resolving to
`2025-03-01T00:00:00Z` and rendering back as `2025-03-01`), and the string
`not-a-date` raises `InvalidDateFormat` naming it. -/
theorem c9_date_round_trip_witness :
    ("2025-03-01".toList = ymdChars 2025 3 1 ∧
     parseYMD "2025-03-01" = some (2025, 3, 1) ∧
     resolveDueDate { name := some "M", dueDate := .str "2025-03-01" } none =
       .ok (some "2025-03-01T00:00:00Z") ∧
     formatDate (some "2025-03-01T00:00:00Z") = some "2025-03-01") ∧
    (parseYMD "not-a-date" = none ∧
     resolveDueDate { name := some "M", dueDate := .str "not-a-date" } none =
       .error "Invalid date format: not-a-date. Expected YYYY-MM-DD") := by
  constructor
  · refine ⟨by decide, ?_, ?_, ?_⟩
    · exact ((c9_date_round_trip.1
        { name := some "M", dueDate := .str "2025-03-01" } none "2025-03-01"
        2025 3 1 (by decide) rfl (by decide) (by decide) (by decide) (by decide)
        (by decide) (by decide) (by decide)).1)
    · exact ((c9_date_round_trip.1
        { name := some "M", dueDate := .str "2025-03-01" } none "2025-03-01"
        2025 3 1 (by decide) rfl (by decide) (by decide) (by decide) (by decide)
        (by decide) (by decide) (by decide)).2.1)
    · exact ((c9_date_round_trip.1
        { name := some "M", dueDate := .str "2025-03-01" } none "2025-03-01"
        2025 3 1 (by decide) rfl (by decide) (by decide) (by decide) (by decide)
        (by decide) (by decide) (by decide)).2.2.2)
  · refine ⟨by decide, ?_⟩
    exact (c9_date_round_trip.2
      { name := some "M", dueDate := .str "not-a-date" } none "not-a-date"
      (by decide) rfl (by decide) (by decide))

/-! ## Idempotence machinery -/

/-- Name resolution of a fully explicit spec. -/
theorem resolveMilestoneName_explicit {net : Net} {cfg : MilestoneSpec}
    {n dsc iso : String} (hE : ExplicitSpec cfg n dsc iso) :
    resolveMilestoneName net cfg = .ok n := by
  simp only [resolveMilestoneName, hE.href, hE.hname]

/-- Description resolution of a fully explicit spec. -/
theorem resolveDescription_explicit {cfg : MilestoneSpec} {n dsc iso : String}
    (hE : ExplicitSpec cfg n dsc iso) : resolveDescription cfg = some dsc := by
  simp only [resolveDescription, hE.href, hE.hdesc]
  rw [if_neg hE.hdescNe]

/-- Due-date resolution of a fully explicit spec. -/
theorem resolveDueDate_explicit {cfg : MilestoneSpec} {n dsc iso : String}
    (hE : ExplicitSpec cfg n dsc iso) (refM : Option Milestone) :
    resolveDueDate cfg refM = .ok (some iso) := by
  obtain ⟨ds, y, m, d, hds, hp, hiso⟩ := hE.hdue
  have hdsne : ds ≠ "" := by
    intro hcon
    subst hcon
    rw [show parseYMD "" = none from by decide] at hp
    exact Option.noConfusion hp
  simp only [resolveDueDate, hE.href, hds]
  rw [if_neg hdsne, hp, hiso]

/-- A fully explicit spec fetches no reference milestone. -/
theorem refMilestoneOf_explicit {net : Net} {cfg : MilestoneSpec}
    {n dsc iso : String} (hE : ExplicitSpec cfg n dsc iso) :
    refMilestoneOf net cfg = none := by
  simp only [refMilestoneOf, hE.href]

/-- The resolved due date of a fully explicit spec is non-empty. -/
theorem explicit_iso_ne {cfg : MilestoneSpec} {n dsc iso : String}
    (hE : ExplicitSpec cfg n dsc iso) : iso ≠ "" := by
  obtain ⟨ds, y, m, d, _, _, hiso⟩ := hE.hdue
  rw [hiso]
  exact formatIsoMidnight_ne_empty y m d

/-- A title-preserving map commutes with the title lookup. -/
theorem findMilestoneByName_map (f : Milestone → Milestone)
    (hf : ∀ m, (f m).title = m.title) (l : List Milestone) (n : String) :
    findMilestoneByName (l.map f) n = (findMilestoneByName l n).map f := by
  unfold findMilestoneByName
  rw [List.find?_map]
  have hp : ((fun m : Milestone => m.title == n) ∘ f) =
      (fun m : Milestone => m.title == n) := by
    funext m
    simp [Function.comp, hf m]
  rw [hp]

/-- The update applied by an explicit spec: title untouched, description and
due date overwritten. -/
theorem applyUpdate_explicit_title (num : Nat) (dsc iso : String) :
    ∀ m : Milestone,
      ((fun m : Milestone => if m.number = num then
        { m with title := (Option.getD none m.title),
                 description := some dsc, due_on := some iso }
        else m) m).title = m.title := by
  intro m
  by_cases h : m.number = num <;> simp [h, Option.getD]

/-- Milestone numbers are preserved by `applyUpdate`. -/
theorem applyUpdate_number (st : RepoState) (num : Nat) (p : UpdatePayload) :
    ∀ m ∈ (applyUpdate st num p).milestones, ∃ m0 ∈ st.milestones,
      m.number = m0.number := by
  intro m hm
  unfold applyUpdate at hm
  simp only [List.mem_map] at hm
  obtain ⟨m0, hm0, heq⟩ := hm
  refine ⟨m0, hm0, ?_⟩
  subst heq
  by_cases h : m0.number = num <;> simp [h]

/-- `applyUpdate` keeps the repository sane. -/
theorem WFRepo_applyUpdate (st : RepoState) (num : Nat) (p : UpdatePayload)
    (h : WFRepo st) : WFRepo (applyUpdate st num p) := by
  obtain ⟨hpw, hbound⟩ := h
  constructor
  · unfold applyUpdate
    simp only
    rw [List.pairwise_map]
    refine hpw.imp_of_mem ?_
    intro a b _ _ hab
    by_cases ha : a.number = num <;> by_cases hb : b.number = num <;>
      simp [ha, hb] <;> omega
  · intro m hm
    obtain ⟨m0, hm0, heq⟩ := applyUpdate_number st num p m hm
    rw [heq]
    exact hbound m0 hm0

/-- `applyCreate` keeps the repository sane. -/
theorem WFRepo_applyCreate (st : RepoState) (p : CreatePayload)
    (h : WFRepo st) : WFRepo (applyCreate st p).2 := by
  obtain ⟨hpw, hbound⟩ := h
  constructor
  · unfold applyCreate
    simp only
    rw [List.pairwise_append]
    refine ⟨hpw, List.pairwise_singleton _ _, ?_⟩
    intro a ha b hb
    simp only [List.mem_singleton] at hb
    subst hb
    have := hbound a ha
    simp only
    omega
  · intro m hm
    unfold applyCreate at hm
    simp only [List.mem_append, List.mem_singleton] at hm
    rcases hm with h1 | h1
    · have := hbound m h1
      unfold applyCreate
      simp only
      omega
    · subst h1
      simp [applyCreate]

/-- Reading the updated repository back. -/
theorem updateWorld_same (w : World) (o r : String) (st : RepoState) :
    updateWorld w o r st o r = st := by
  simp [updateWorld]

/-- Reading another repository is unaffected. -/
theorem updateWorld_other (w : World) (o r : String) (st : RepoState)
    (o2 r2 : String) (h : ¬(o2 = o ∧ r2 = r)) :
    updateWorld w o r st o2 r2 = w o2 r2 := by
  simp only [updateWorld]
  rw [if_neg h]

/-- The title lookup after an `applyUpdate` that sends no title. -/
theorem findMilestoneByName_applyUpdate (st : RepoState) (num : Nat)
    (p : UpdatePayload) (hp : p.title = none) (n : String) :
    findMilestoneByName (applyUpdate st num p).milestones n =
      (findMilestoneByName st.milestones n).map
        (fun m => if m.number = num then
          { m with title := p.title.getD m.title,
                   description := match p.description with
                                   | some d => some d
                                   | none => m.description,
                   due_on := match p.due_on with
                             | some d => some d
                             | none => m.due_on }
          else m) := by
  unfold applyUpdate
  exact findMilestoneByName_map _
    (fun m => by by_cases h : m.number = num <;> simp [h, hp]) _ n

/-- Updating the first milestone titled `n` with a description and a due date
establishes the reconciled state for `n`. -/
theorem Est_applyUpdate_self (st : RepoState) (n dsc iso : String) (em : Milestone)
    (hfind : findMilestoneByName st.milestones n = some em) :
    Est (applyUpdate st em.number
      { title := none, description := some dsc, due_on := some iso }) n dsc iso := by
  unfold Est
  rw [findMilestoneByName_applyUpdate st em.number _ rfl n, hfind]
  refine ⟨_, rfl, ?_, ?_⟩ <;> simp

/-- Updating the first milestone titled `n` preserves the reconciled state of
any other name, in a sane repository. -/
theorem Est_applyUpdate_preserve (st : RepoState) (hwf : WFRepo st)
    (n n0 dsc iso d0 i0 : String) (em : Milestone)
    (hfind : findMilestoneByName st.milestones n = some em)
    (hne : n0 ≠ n) (hEst : Est st n0 d0 i0) :
    Est (applyUpdate st em.number
      { title := none, description := some dsc, due_on := some iso }) n0 d0 i0 := by
  obtain ⟨m0, hfind0, hdesc0, hdue0⟩ := hEst
  unfold Est
  rw [findMilestoneByName_applyUpdate st em.number _ rfl n0, hfind0]
  have hm0em : m0 ≠ em := by
    intro hcon
    have h1 := (findMilestoneByName_some hfind0).2
    have h2 := (findMilestoneByName_some hfind).2
    rw [hcon] at h1
    rw [h1] at h2
    exact hne h2
  have hnum : m0.number ≠ em.number := by
    have hsymm : Symmetric (fun a b : Milestone => a.number ≠ b.number) :=
      fun _ _ h => Ne.symm h
    exact hwf.1.forall hsymm (List.mem_of_find?_eq_some hfind0)
      (List.mem_of_find?_eq_some hfind) hm0em
  refine ⟨_, rfl, ?_, ?_⟩ <;> simp [hnum, hdesc0, hdue0]

/-- Creating a milestone titled `n` (absent before) establishes the
reconciled state for `n`. -/
theorem Est_applyCreate_self (st : RepoState) (n dsc iso : String)
    (hfind : findMilestoneByName st.milestones n = none) :
    Est (applyCreate st
      { title := n, description := some dsc, due_on := some iso }).2 n dsc iso := by
  unfold Est applyCreate
  simp only
  unfold findMilestoneByName at hfind ⊢
  rw [List.find?_append, hfind]
  simp

/-- Appending a created milestone preserves any established reconciled
state. -/
theorem Est_applyCreate_preserve (st : RepoState) (p : CreatePayload)
    (n0 d0 i0 : String) (hEst : Est st n0 d0 i0) :
    Est (applyCreate st p).2 n0 d0 i0 := by
  obtain ⟨m0, hfind0, h1, h2⟩ := hEst
  unfold Est applyCreate
  simp only
  unfold findMilestoneByName at hfind0 ⊢
  rw [List.find?_append, hfind0]
  exact ⟨m0, rfl, h1, h2⟩

/-- Decision of an explicit spec when a milestone with the resolved name
exists: an update with no title, the resolved description, and the resolved
due date. -/
theorem pmAfterDue_explicit_update {net : Net} {cfg : MilestoneSpec}
    {n dsc iso : String} (hE : ExplicitSpec cfg n dsc iso)
    (dry : Bool) (w : World) (rp o r : String) (em : Milestone)
    (hfind : findMilestoneByName (w o r).milestones n = some em) :
    pmAfterDue net cfg dry w rp o r n (some iso) =
      ({ basePMResult rp with
          name := some n, new_name := some n, new_description := some dsc,
          new_due_date := some iso,
          previous_name := some em.title,
          previous_description := truthyOpt em.description,
          previous_due_date := truthyOpt em.due_on,
          milestone_number := some em.number,
          action := some (if dry then ActionVerb.update else ActionVerb.updated),
          milestone_url := urlIfNonzero o r (some em.number) },
       if dry then w
       else updateWorld w o r (applyUpdate (w o r) em.number
         { title := none, description := some dsc, due_on := some iso }),
       if dry then []
       else [RemoteCall.updateCall o r em.number
         { title := none, description := some dsc, due_on := some iso }]) := by
  have hmat : matchExisting (w o r).milestones cfg (refMilestoneOf net cfg) n =
      (findMilestoneByName (w o r).milestones n, false) :=
    matchExisting_no_rename (by rw [hE.hren])
  simp only [pmAfterDue, resolveDescription_explicit hE, hmat, hfind]
  cases dry <;> rfl

/-- Decision of an explicit spec when no milestone with the resolved name
exists: a creation carrying name, description, and due date. -/
theorem pmAfterDue_explicit_create {net : Net} {cfg : MilestoneSpec}
    {n dsc iso : String} (hE : ExplicitSpec cfg n dsc iso)
    (dry : Bool) (w : World) (rp o r : String)
    (hfind : findMilestoneByName (w o r).milestones n = none) :
    pmAfterDue net cfg dry w rp o r n (some iso) =
      (if dry then
        ({ basePMResult rp with
            name := some n, new_name := some n,
            new_description := some dsc, new_due_date := some iso,
            action := some ActionVerb.create }, w, [])
       else
        ({ basePMResult rp with
            name := some n, new_name := some n,
            new_description := some dsc, new_due_date := some iso,
            milestone_number := some (w o r).nextNumber,
            action := some ActionVerb.created,
            milestone_url := urlIfNonzero o r (some (w o r).nextNumber) },
         updateWorld w o r (applyCreate (w o r)
           { title := n, description := some dsc, due_on := some iso }).2,
         [RemoteCall.createCall o r
           { title := n, description := some dsc, due_on := some iso }])) := by
  have hmat : matchExisting (w o r).milestones cfg (refMilestoneOf net cfg) n =
      (findMilestoneByName (w o r).milestones n, false) :=
    matchExisting_no_rename (by rw [hE.hren])
  simp only [pmAfterDue, resolveDescription_explicit hE, hmat, hfind]
  cases dry <;> rfl

/-- One processing step of a fully explicit spec: always succeeds; a dry run
leaves the world alone; a real run touches only this repository,
establishes the reconciled state for the spec's name, keeps the repository
sane, and preserves the reconciled state of every other name; and whenever
the reconciled state already held on entry, the result is an update whose
previous and new field values all coincide with the resolved values. -/
theorem pm_explicit_step {net : Net} {cfg : MilestoneSpec} {n dsc iso : String}
    (hE : ExplicitSpec cfg n dsc iso) (w : World) (rp o r : String)
    (hsp : splitFirst '/' rp = some (o, r)) (dry : Bool) :
    ∃ res w' cs, processMilestone net rp cfg dry w = .ok (res, w', cs) ∧
      (dry = true → w' = w) ∧
      (dry = false → (∀ o2 r2, ¬(o2 = o ∧ r2 = r) → w' o2 r2 = w o2 r2) ∧
        Est (w' o r) n dsc iso ∧
        (WFRepo (w o r) → WFRepo (w' o r)) ∧
        (∀ n0 d0 i0, n0 ≠ n → WFRepo (w o r) → Est (w o r) n0 d0 i0 →
          Est (w' o r) n0 d0 i0)) ∧
      (Est (w o r) n dsc iso →
        res.action = some (if dry then ActionVerb.update else ActionVerb.updated) ∧
        res.previous_name = some n ∧ res.new_name = some n ∧
        res.previous_description = some dsc ∧ res.new_description = some dsc ∧
        res.previous_due_date = some iso ∧ res.new_due_date = some iso) := by
  have hpm : processMilestone net rp cfg dry w =
      .ok (pmAfterDue net cfg dry w rp o r n (some iso)) := by
    unfold processMilestone
    rw [hsp, resolveMilestoneName_explicit hE]
    unfold pmAfterName
    rw [resolveDueDate_explicit hE]
  cases hfind : findMilestoneByName (w o r).milestones n with
  | some em =>
    rw [pmAfterDue_explicit_update hE dry w rp o r em hfind] at hpm
    have hgood : Est (w o r) n dsc iso →
        truthyOpt em.description = some dsc ∧ truthyOpt em.due_on = some iso ∧
        em.title = n := by
      intro hEst
      obtain ⟨m, hm, hd1, hd2⟩ := hEst
      rw [hfind] at hm
      cases hm
      refine ⟨?_, ?_, (findMilestoneByName_some hfind).2⟩
      · rw [hd1]
        simp [truthyOpt, hE.hdescNe]
      · rw [hd2]
        simp [truthyOpt, explicit_iso_ne hE]
    cases dry with
    | true =>
      refine ⟨_, _, _, hpm, fun _ => rfl, fun hcon => Bool.noConfusion hcon,
        fun hEst => ?_⟩
      obtain ⟨g1, g2, g3⟩ := hgood hEst
      exact ⟨rfl, by simp [g3], rfl, by simp [g1], rfl, by simp [g2], rfl⟩
    | false =>
      simp only [Bool.false_eq_true, if_false] at hpm
      refine ⟨_, _, _, hpm, fun hcon => Bool.noConfusion hcon,
        fun _ => ⟨?_, ?_, ?_, ?_⟩, fun hEst => ?_⟩
      · intro o2 r2 h
        exact updateWorld_other w o r _ o2 r2 h
      · rw [updateWorld_same]
        exact Est_applyUpdate_self (w o r) n dsc iso em hfind
      · intro hwf
        rw [updateWorld_same]
        exact WFRepo_applyUpdate (w o r) em.number _ hwf
      · intro n0 d0 i0 hne hwf hEst0
        rw [updateWorld_same]
        exact Est_applyUpdate_preserve (w o r) hwf n n0 dsc iso d0 i0 em hfind hne hEst0
      · obtain ⟨g1, g2, g3⟩ := hgood hEst
        exact ⟨rfl, by simp [g3], rfl, by simp [g1], rfl, by simp [g2], rfl⟩
  | none =>
    rw [pmAfterDue_explicit_create hE dry w rp o r hfind] at hpm
    have hbad : Est (w o r) n dsc iso → False := by
      intro hEst
      obtain ⟨m, hm, _, _⟩ := hEst
      rw [hfind] at hm
      exact Option.noConfusion hm
    cases dry with
    | true =>
      rw [if_pos rfl] at hpm
      exact ⟨_, _, _, hpm, fun _ => rfl, fun hcon => Bool.noConfusion hcon,
        fun hEst => absurd hEst (fun h => hbad h)⟩
    | false =>
      rw [if_neg Bool.false_ne_true] at hpm
      refine ⟨_, _, _, hpm, fun hcon => Bool.noConfusion hcon,
        fun _ => ⟨?_, ?_, ?_, ?_⟩, fun hEst => absurd hEst (fun h => hbad h)⟩
      · intro o2 r2 h
        exact updateWorld_other w o r _ o2 r2 h
      · rw [updateWorld_same]
        exact Est_applyCreate_self (w o r) n dsc iso hfind
      · intro hwf
        rw [updateWorld_same]
        exact WFRepo_applyCreate (w o r) _ hwf
      · intro n0 d0 i0 _ _ hEst0
        rw [updateWorld_same]
        exact Est_applyCreate_preserve (w o r) _ n0 d0 i0 hEst0

/-- A field diff with identical previous and new values reports unchanged. -/
theorem diffUnchanged_refl (x : Option String) (d : Bool) : DiffUnchanged x x d := rfl

/-- The inner loop over explicit specs with pairwise-distinct names: always
succeeds, touches only its repository, keeps the world sane, establishes the
reconciled state of every spec (real run), preserves reconciled states of
untouched names, and — when every spec was already reconciled on entry —
produces only update results whose three diffs are unchanged. -/
theorem runMilestones_explicit (net : Net) (rp o r : String)
    (hsp : splitFirst '/' rp = some (o, r)) (dry : Bool) :
    ∀ (specs : List MilestoneSpec) (w : World),
      (∀ cfg ∈ specs, ∃ n dsc iso, ExplicitSpec cfg n dsc iso) →
      specs.Pairwise (fun a b => a.name ≠ b.name) →
      WFWorld w →
      ∃ rs w', runMilestones net rp specs dry w = .ok (rs, w') ∧
        WFWorld w' ∧
        (dry = true → w' = w) ∧
        (∀ o2 r2, ¬(o2 = o ∧ r2 = r) → w' o2 r2 = w o2 r2) ∧
        (dry = false → ∀ cfg ∈ specs, ∀ n dsc iso, ExplicitSpec cfg n dsc iso →
          Est (w' o r) n dsc iso) ∧
        (∀ n0 d0 i0, Est (w o r) n0 d0 i0 →
          (∀ cfg ∈ specs, ∀ n dsc iso, ExplicitSpec cfg n dsc iso → n ≠ n0) →
          Est (w' o r) n0 d0 i0) ∧
        ((∀ cfg ∈ specs, ∀ n dsc iso, ExplicitSpec cfg n dsc iso →
            Est (w o r) n dsc iso) →
          ∀ res ∈ rs, GoodSecond res dry) := by
  intro specs
  induction specs with
  | nil =>
    intro w _ _ hwf
    exact ⟨[], w, rfl, hwf, fun _ => rfl, fun _ _ _ => rfl, fun _ cfg hc => absurd hc
      (List.not_mem_nil cfg), fun n0 d0 i0 h _ => h, fun _ res hres => absurd hres
      (List.not_mem_nil res)⟩
  | cons s rest ih =>
    intro w hex hdist hwf
    obtain ⟨hhead, htail⟩ := List.pairwise_cons.mp hdist
    obtain ⟨n, dsc, iso, hE⟩ := hex s (List.mem_cons_self s rest)
    obtain ⟨res, w1, cs, hpm, hdry, hreal, hgoodres⟩ :=
      pm_explicit_step hE w rp o r hsp dry
    have hw1frame : ∀ o2 r2, ¬(o2 = o ∧ r2 = r) → w1 o2 r2 = w o2 r2 := by
      cases dry with
      | true => rw [hdry rfl]; exact fun _ _ _ => rfl
      | false => exact (hreal rfl).1
    have hw1wf : WFWorld w1 := by
      cases dry with
      | true => rw [hdry rfl]; exact hwf
      | false =>
        intro o2 r2
        by_cases hkey : o2 = o ∧ r2 = r
        · obtain ⟨h1, h2⟩ := hkey
          subst h1; subst h2
          exact (hreal rfl).2.2.1 (hwf o2 r2)
        · rw [hw1frame o2 r2 hkey]
          exact hwf o2 r2
    have htransport : ∀ n0 d0 i0, n0 ≠ n → Est (w o r) n0 d0 i0 →
        Est (w1 o r) n0 d0 i0 := by
      intro n0 d0 i0 hne hEst0
      cases dry with
      | true => rw [hdry rfl]; exact hEst0
      | false => exact (hreal rfl).2.2.2 n0 d0 i0 hne (hwf o r) hEst0
    have hname_ne : ∀ cfg ∈ rest, ∀ n2 dsc2 iso2, ExplicitSpec cfg n2 dsc2 iso2 →
        n2 ≠ n := by
      intro cfg hc n2 dsc2 iso2 hE2
      intro hcon
      have h1 := hhead cfg hc
      rw [hE.hname, hE2.hname, hcon] at h1
      exact h1 rfl
    obtain ⟨rs2, w2, hrun2, hwf2, hdry2, hframe2, hest2, hpres2, hgood2⟩ :=
      ih w1 (fun cfg hc => hex cfg (List.mem_cons_of_mem s hc)) htail hw1wf
    refine ⟨res :: rs2, w2, ?_, hwf2, ?_, ?_, ?_, ?_, ?_⟩
    · rw [runMilestones_cons_ok hpm, hrun2]
    · intro hd
      rw [hdry2 hd, hdry hd]
    · intro o2 r2 hkey
      rw [hframe2 o2 r2 hkey, hw1frame o2 r2 hkey]
    · intro hd cfg hc n2 dsc2 iso2 hE2
      rcases List.mem_cons.mp hc with hc1 | hc1
      · subst hc1
        have hn : n = n2 := Option.some.inj (hE.hname.symm.trans hE2.hname)
        cases hn
        have hdsc : dsc = dsc2 := by
          have h := hE.hdesc.symm.trans hE2.hdesc
          injection h
        cases hdsc
        have hi : iso = iso2 := by
          obtain ⟨ds, y, m, d, hds, hp, hiso⟩ := hE.hdue
          obtain ⟨ds2, y2, m2, d2, hds2, hp2, hiso2⟩ := hE2.hdue
          have hdd := hds.symm.trans hds2
          injection hdd with hdd
          cases hdd
          rw [hp] at hp2
          injection hp2 with hp2
          injection hp2 with ha hb
          injection hb with hb hc2
          cases ha
          cases hb
          cases hc2
          rw [hiso, hiso2]
        cases hi
        exact hpres2 n dsc iso ((hreal hd).2.1)
          (fun cfg2 hc2 n3 dsc3 iso3 hE3 => hname_ne cfg2 hc2 n3 dsc3 iso3 hE3)
      · exact hest2 hd cfg hc1 n2 dsc2 iso2 hE2
    · intro n0 d0 i0 hEst0 hall
      have hn0 : n ≠ n0 := hall s (List.mem_cons_self s rest) n dsc iso hE
      refine hpres2 n0 d0 i0 (htransport n0 d0 i0 (Ne.symm hn0) hEst0) ?_
      intro cfg hc n2 dsc2 iso2 hE2
      exact hall cfg (List.mem_cons_of_mem s hc) n2 dsc2 iso2 hE2
    · intro hall res2 hres2
      rcases List.mem_cons.mp hres2 with hr1 | hr1
      · subst hr1
        obtain ⟨g1, g2, g3, g4, g5, g6, g7⟩ :=
          hgoodres (hall s (List.mem_cons_self s rest) n dsc iso hE)
        refine ⟨g1, ?_, ?_, ?_⟩
        · rw [g2, g3]
          exact diffUnchanged_refl _ _
        · rw [g4, g5]
          exact diffUnchanged_refl _ _
        · rw [g6, g7]
          exact diffUnchanged_refl _ _
      · refine hgood2 ?_ res2 hr1
        intro cfg hc n2 dsc2 iso2 hE2
        exact htransport n2 dsc2 iso2 (hname_ne cfg hc n2 dsc2 iso2 hE2)
          (hall cfg (List.mem_cons_of_mem s hc) n2 dsc2 iso2 hE2)

/-- The outer loop over valid repositories with explicit, distinct-name
specs: always succeeds, leaves untargeted repositories alone, establishes the
reconciled state of every (repo, spec) pair on a real run, and — when every
pair was already reconciled on entry — produces only update results whose
three rendered diffs are unchanged. -/
theorem runRepos_explicit (net : Net) (dry : Bool) (specs : List MilestoneSpec)
    (hex : ∀ cfg ∈ specs, ∃ n dsc iso, ExplicitSpec cfg n dsc iso)
    (hdist : specs.Pairwise (fun a b => a.name ≠ b.name)) :
    ∀ (repos : List String) (w : World),
      (∀ rp ∈ repos, containsSlash rp = true) → WFWorld w →
      ∃ rs w', runRepos net repos specs dry w = .ok (rs, w') ∧ WFWorld w' ∧
        (dry = true → w' = w) ∧
        (∀ o r, (∀ rp ∈ repos, splitFirst '/' rp ≠ some (o, r)) → w' o r = w o r) ∧
        (dry = false → ∀ rp ∈ repos, ∀ o r, splitFirst '/' rp = some (o, r) →
          ∀ cfg ∈ specs, ∀ n dsc iso, ExplicitSpec cfg n dsc iso →
            Est (w' o r) n dsc iso) ∧
        ((∀ rp ∈ repos, ∀ o r, splitFirst '/' rp = some (o, r) →
            ∀ cfg ∈ specs, ∀ n dsc iso, ExplicitSpec cfg n dsc iso →
              Est (w o r) n dsc iso) →
          ∀ res ∈ rs, GoodSecond res dry) := by
  intro repos
  induction repos with
  | nil =>
    intro w _ hwf
    exact ⟨[], w, rfl, hwf, fun _ => rfl, fun _ _ _ => rfl,
      fun _ rp hrp => absurd hrp (List.not_mem_nil rp),
      fun _ res hres => absurd hres (List.not_mem_nil res)⟩
  | cons rp rest ih =>
    intro w hsl hwf
    have hslh := hsl rp (List.mem_cons_self rp rest)
    unfold containsSlash at hslh
    obtain ⟨⟨o, r⟩, hsp⟩ := Option.isSome_iff_exists.mp hslh
    obtain ⟨rs1, w1, h1, hwf1, hdry1, hframe1, hest1, hpres1, hgood1⟩ :=
      runMilestones_explicit net rp o r hsp dry specs w hex hdist hwf
    obtain ⟨rs2, w2, h2, hwf2, hdry2, hframe2, hest2, hgood2⟩ :=
      ih w1 (fun x hx => hsl x (List.mem_cons_of_mem rp hx)) hwf1
    have htrans1 : ∀ o2 r2, ∀ cfg ∈ specs, ∀ n dsc iso, ExplicitSpec cfg n dsc iso →
        Est (w o2 r2) n dsc iso → Est (w1 o2 r2) n dsc iso := by
      intro o2 r2 cfg hc n dsc iso hE hEst
      cases dry with
      | true => rw [hdry1 rfl]; exact hEst
      | false =>
        by_cases hkey : o2 = o ∧ r2 = r
        · obtain ⟨hk1, hk2⟩ := hkey
          subst hk1; subst hk2
          exact hest1 rfl cfg hc n dsc iso hE
        · rw [hframe1 o2 r2 hkey]
          exact hEst
    refine ⟨rs1 ++ rs2, w2, ?_, hwf2, ?_, ?_, ?_, ?_⟩
    · rw [runRepos_cons_ok h1, h2]
    · intro hd
      rw [hdry2 hd, hdry1 hd]
    · intro o2 r2 hkeys
      have hne : ¬(o2 = o ∧ r2 = r) := by
        intro ⟨hk1, hk2⟩
        subst hk1; subst hk2
        exact hkeys rp (List.mem_cons_self rp rest) hsp
      rw [hframe2 o2 r2 (fun x hx => hkeys x (List.mem_cons_of_mem rp hx)),
        hframe1 o2 r2 hne]
    · intro hd rp2 hrp2 o2 r2 hsp2 cfg hc n dsc iso hE
      rcases List.mem_cons.mp hrp2 with hr | hr
      · subst hr
        rw [hsp] at hsp2
        have hpair : (o, r) = (o2, r2) := Option.some.inj hsp2
        injection hpair with hp1 hp2
        subst hp1; subst hp2
        by_cases hcase : ∀ rp3 ∈ rest, splitFirst '/' rp3 ≠ some (o, r)
        · rw [hframe2 o r hcase]
          exact hest1 hd cfg hc n dsc iso hE
        · push_neg at hcase
          obtain ⟨rp3, hrp3, hsp3⟩ := hcase
          exact hest2 hd rp3 hrp3 o r hsp3 cfg hc n dsc iso hE
      · exact hest2 hd rp2 hr o2 r2 hsp2 cfg hc n dsc iso hE
    · intro hall res hres
      rcases List.mem_append.mp hres with hr | hr
      · exact hgood1
          (fun cfg hc n dsc iso hE =>
            hall rp (List.mem_cons_self rp rest) o r hsp cfg hc n dsc iso hE)
          res hr
      · refine hgood2 ?_ res hr
        intro rp2 hrp2 o2 r2 hsp2 cfg hc n dsc iso hE
        exact htrans1 o2 r2 cfg hc n dsc iso hE
          (hall rp2 (List.mem_cons_of_mem rp hrp2) o2 r2 hsp2 cfg hc n dsc iso hE)

/-- C5 (amended): for a config of valid repository targets and fully
explicit, pairwise-distinct-name milestone specs, against any sane remote
state: after one real run, a second run (dry or real) on the resulting
remote state returns one result per pair, every result choosing the update
action (never create), with all three rendered field diffs (name,
description, due date) reporting unchanged. -/
theorem c5_second_run_unchanged (net : Net) (repos : List String)
    (specs : List MilestoneSpec) (w : World) (dry2 : Bool)
    (hsl : ∀ rp ∈ repos, containsSlash rp = true)
    (hex : ∀ cfg ∈ specs, ∃ n dsc iso, ExplicitSpec cfg n dsc iso)
    (hdist : specs.Pairwise (fun a b => a.name ≠ b.name))
    (hwf : WFWorld w) :
    ∃ rs1 w1 rs2 w2,
      runCreator net ⟨repos, specs⟩ false w = .ok (rs1, w1) ∧
      runCreator net ⟨repos, specs⟩ dry2 w1 = .ok (rs2, w2) ∧
      rs2.length = repos.length * specs.length ∧
      ∀ res ∈ rs2, GoodSecond res dry2 := by
  obtain ⟨rs1, w1, h1, hwf1, _, _, hest1, _⟩ :=
    runRepos_explicit net false specs hex hdist repos w hsl hwf
  obtain ⟨rs2, w2, h2, _, _, _, _, hgood2⟩ :=
    runRepos_explicit net dry2 specs hex hdist repos w1 hsl hwf1
  have hlen : rs2.length = repos.length * specs.length := by
    obtain ⟨rs2', w2', h2', hlen', _⟩ := runRepos_shape net specs dry2 repos hsl w1
    rw [h2] at h2'
    injection h2' with h2''
    injection h2'' with ha hb
    rw [ha]
    exact hlen'
  refine ⟨rs1, w1, rs2, w2, h1, h2, hlen, ?_⟩
  exact hgood2 (fun rp hrp o r hsp cfg hc n dsc iso hE =>
    hest1 rfl rp hrp o r hsp cfg hc n dsc iso hE)

/-- C5 counterexample: one non-linked spec with `description` and `dueDate`
absent, against a repository whose milestone `M` already carries a
description and a due date. The first run updates nothing (empty request
body), so the remote state is exactly what the first run produced, yet the
second run, while choosing update, renders `old → (not set)` change lines
for description and due date rather than `(unchanged)`. -/
theorem c5_counterexample :
    runTwice netNone ⟨["o/r"], [{ name := some "M" }]⟩ false worldM =
      .ok [{ repo := "o/r", action := some ActionVerb.updated,
             milestone_number := some 1,
             milestone_url := some "https://github.com/o/r/milestone/1",
             name := some "M", error := none, previous_name := some "M",
             previous_description := some "old",
             previous_due_date := some "2024-01-01T00:00:00Z",
             new_name := some "M", new_description := none,
             new_due_date := none }] ∧
    ¬ DiffUnchanged (some "old") none false ∧
    ¬ DiffUnchanged (formatDate (some "2024-01-01T00:00:00Z")) (formatDate none) true :=
  ⟨by decide, by decide, by decide⟩

/-- C5 witness: one repository and two explicit specs; running twice from an
empty remote yields a second run of two updates whose diffs are all
unchanged. -/
theorem c5_second_run_unchanged_witness :
    (∀ rp ∈ ["o/r"], containsSlash rp = true) ∧
    (∃ rs1 w1 rs2 w2,
      runCreator netNone
        ⟨["o/r"],
         [{ name := some "A", description := .str "da", dueDate := .str "2025-03-01" },
          { name := some "B", description := .str "db", dueDate := .str "2025-04-02" }]⟩
        false emptyWorld = .ok (rs1, w1) ∧
      runCreator netNone
        ⟨["o/r"],
         [{ name := some "A", description := .str "da", dueDate := .str "2025-03-01" },
          { name := some "B", description := .str "db", dueDate := .str "2025-04-02" }]⟩
        false w1 = .ok (rs2, w2) ∧
      rs2.length = 1 * 2 ∧
      ∀ res ∈ rs2, GoodSecond res false) := by
  refine ⟨by decide, ?_⟩
  refine c5_second_run_unchanged netNone ["o/r"]
    [{ name := some "A", description := .str "da", dueDate := .str "2025-03-01" },
     { name := some "B", description := .str "db", dueDate := .str "2025-04-02" }]
    emptyWorld false (by decide) ?_ ?_ ?_
  · intro cfg hc
    rcases List.mem_cons.mp hc with h | h
    · subst h
      exact ⟨"A", "da", formatIsoMidnight 2025 3 1,
        rfl, rfl, rfl, rfl, by decide, ⟨"2025-03-01", 2025, 3, 1, rfl, by decide, rfl⟩⟩
    · rcases List.mem_cons.mp h with h2 | h2
      · subst h2
        exact ⟨"B", "db", formatIsoMidnight 2025 4 2,
          rfl, rfl, rfl, rfl, by decide, ⟨"2025-04-02", 2025, 4, 2, rfl, by decide, rfl⟩⟩
      · exact absurd h2 (List.not_mem_nil cfg)
  · refine List.pairwise_cons.mpr ⟨?_, List.pairwise_singleton _ _⟩
    intro b hb
    rcases List.mem_cons.mp hb with h | h
    · subst h
      simp
    · exact absurd h (List.not_mem_nil b)
  · intro o r
    constructor
    · exact List.Pairwise.nil
    · intro m hm
      exact absurd hm (List.not_mem_nil m)
